import Mathlib

/-!
Verification of the descriptor-to-stub generation engine of `pyo3-stub-gen`.

The definitions below are a shallow embedding of the Rust sources:
* `src/pyo3-stub-gen/src/generate/stub_info.rs`
* `src/pyo3-stub-gen/src/generate/method.rs`
* `src/pyo3-stub-gen/src/generate/variant_methods.rs`
* `src/pyo3-stub-gen-derive/src/gen_stub/pyclass_complex_enum.rs`
* `src/pyo3-stub-gen-derive/src/gen_stub/stub_type.rs`

Rust strings are embedded as `List Char` (a Rust `&str` is a sequence of
`char`s for every operation used here), `u8` as `Nat` with an explicit
`≤ 255` bound at parse time, `BTreeMap`/`BTreeSet` as key-sorted
association lists, and `IndexMap` as an insertion-ordered association
list.  Functions keep the source names where Lean allows it.
-/

/-! ## Rust string primitives used by `stub_info.rs` -/

/-- Embedding of Rust `char::is_whitespace`: the Unicode `White_Space`
property, listed by code point. -/
def rustIsWhitespace (c : Char) : Bool :=
  c == ' ' || c == '\t' || c == '\n' || c == '\r' || c == '\x0B' || c == '\x0C' ||
  c == '\u0085' || c == ' ' || c.toNat == 0x1680 ||
  (0x2000 ≤ c.toNat && c.toNat ≤ 0x200A) ||
  c.toNat == 0x2028 || c.toNat == 0x2029 ||
  c.toNat == 0x202F || c.toNat == 0x205F || c.toNat == 0x3000

/-- Drop leading characters satisfying `p` (Rust `trim_start_matches` /
the leading half of `trim`). -/
def dropLeading (p : Char → Bool) : List Char → List Char
  | [] => []
  | c :: cs => if p c then dropLeading p cs else c :: cs

/-- Embedding of Rust `str::trim`: strip leading and trailing whitespace. -/
def trimChars (cs : List Char) : List Char :=
  ((dropLeading rustIsWhitespace (dropLeading rustIsWhitespace cs).reverse)).reverse

/-- Embedding of Rust `str::trim_end_matches('*')` (and any single-char
pattern): drop trailing characters equal to `c`. -/
def trimEndMatchesChar (c : Char) (cs : List Char) : List Char :=
  (dropLeading (· == c) cs.reverse).reverse

/-- Helper for `trimEndDotStar`, working on the reversed character list:
repeatedly drop a trailing `".*"` (seen reversed as `'*', '.'`). -/
def dropRevDotStar : List Char → List Char
  | '*' :: '.' :: rest => dropRevDotStar rest
  | l => l

/-- Embedding of Rust `str::trim_end_matches(".*")`: repeatedly strip the
suffix `".*"`. -/
def trimEndDotStar (cs : List Char) : List Char :=
  (dropRevDotStar cs.reverse).reverse

/-- Embedding of Rust `str::strip_prefix`: `some` of the remainder when
`p` is a prefix of `cs`, otherwise `none`. -/
def stripPfx : List Char → List Char → Option (List Char)
  | [], cs => some cs
  | _ :: _, [] => none
  | a :: ps, c :: cs => if a == c then stripPfx ps cs else none

/-- Embedding of Rust `str::split` with a char/predicate pattern: the
(possibly empty) pieces between separator characters.  `""` splits to
`[""]`, matching Rust. -/
def splitBy (p : Char → Bool) : List Char → List (List Char)
  | [] => [[]]
  | c :: rest =>
    let r := splitBy p rest
    if p c then [] :: r
    else
      match r with
      | t :: ts => (c :: t) :: ts
      | [] => [[c]]

/-- Embedding of Rust `str::parse::<u8>()`: an optional leading `'+'`,
then one or more ASCII digits, failing on overflow past `255`.  The
parsed value is returned as a `Nat` (always `≤ 255`). -/
def parseU8 (cs : List Char) : Option Nat :=
  let ds := match cs with
    | '+' :: rest => rest
    | _ => cs
  if ds.isEmpty then none
  else if ds.all (fun c => '0' ≤ c && c ≤ '9') then
    let n := ds.foldl (fun acc c => acc * 10 + (c.toNat - '0'.toNat)) 0
    if n ≤ 255 then some n else none
  else none

/-- ASCII-digit prefix of a character list: Rust's truncation of
`minor_part` at `position(|ch| !matches!(ch, '0'..='9'))`. -/
def takeDigits (cs : List Char) : List Char :=
  cs.takeWhile (fun c => '0' ≤ c && c ≤ '9')

/-! ## `stub_info.rs`: minimum-python-version parsing and the
self-import strategy -/

/-- Embedding of `SelfImportStrategy` from `stub_type` (as consumed by
`stub_info.rs`): `Typing` is the newer spelling, `TypingExtensions` the
older one. -/
inductive SelfImportStrategy where
  | Typing
  | TypingExtensions
deriving DecidableEq, Repr

/-- Embedding of `max_version` (stub_info.rs:122): keep `b` exactly when
it is strictly newer than `a`. -/
def max_version (a b : Nat × Nat) : Nat × Nat :=
  if b.1 > a.1 || (b.1 == a.1 && b.2 > a.2) then b else a

/-- Embedding of `parse_python_version_fragment` (stub_info.rs:102):
trim, strip leading `'='`s, trim, strip leading `'v'`s, strip trailing
`".*"` then `'*'`s, split on `'.'`, parse the major as `u8`, default the
minor to `"0"`, truncate it at the first non-digit and parse it. -/
def parse_python_version_fragment (fragment : List Char) : Option (Nat × Nat) :=
  let cleaned := trimChars fragment
  let cleaned := trimChars (dropLeading (· == '=') cleaned)
  let cleaned := dropLeading (· == 'v') cleaned
  let cleaned := trimEndDotStar cleaned
  let cleaned := trimEndMatchesChar '*' cleaned
  match splitBy (· == '.') cleaned with
  | [] => none
  | major_part :: rest =>
    match parseU8 major_part with
    | none => none
    | some major =>
      let minor_part := trimChars (match rest with
        | [] => ['0']
        | m :: _ => m)
      let minor_part := takeDigits minor_part
      if minor_part.isEmpty then some (major, 0)
      else
        match parseU8 minor_part with
        | none => none
        | some minor => some (major, minor)

/-- Loop body of `parse_minimum_python_version` (stub_info.rs:76-98):
trim the token, skip it when empty, try the `">="`, `"=="`, `"~="`
prefixes in order, and merge a parsed candidate into the running
maximum. -/
def minimumVersionStep (minimum : Option (Nat × Nat)) (token : List Char) :
    Option (Nat × Nat) :=
  let token := trimChars token
  if token.isEmpty then minimum
  else
    let candidate := match stripPfx ['>', '='] token with
      | some rest => parse_python_version_fragment rest
      | none =>
        match stripPfx ['=', '='] token with
        | some rest => parse_python_version_fragment rest
        | none =>
          match stripPfx ['~', '='] token with
          | some rest => parse_python_version_fragment rest
          | none => none
    match candidate with
    | some version =>
      some (match minimum with
        | some current => max_version current version
        | none => version)
    | none => minimum

/-- Embedding of `parse_minimum_python_version` (stub_info.rs:74): fold
`minimumVersionStep` over the comma/space-separated tokens. -/
def parse_minimum_python_version (spec : List Char) : Option (Nat × Nat) :=
  (splitBy (fun c => c == ',' || c == ' ') spec).foldl minimumVersionStep none

/-- Embedding of `configure_self_import_strategy_from_requires_python`
(stub_info.rs:23), returning the strategy it would set: `Typing` when
the parsed minimum is at least `(3, 11)` or when nothing parses,
`TypingExtensions` otherwise. -/
def configure_self_import_strategy_from_requires_python
    (spec : Option (List Char)) : SelfImportStrategy :=
  match spec.bind parse_minimum_python_version with
  | some min_version =>
    if min_version.1 > 3 || (min_version.1 == 3 && min_version.2 ≥ 11) then
      SelfImportStrategy.Typing
    else
      SelfImportStrategy.TypingExtensions
  | none => SelfImportStrategy.Typing

/-! Spec-side formulation of §4.5, written from the specification's
words, to be compared with the source embedding above. -/

/-- Spec formulation: a token is recognized when, after trimming, it
carries a `">="`, `"=="` or `"~="` prefix whose remainder parses as a
version fragment. -/
def recognizedToken (tok : List Char) : Option (Nat × Nat) :=
  let t := trimChars tok
  match stripPfx ['>', '='] t, stripPfx ['=', '='] t, stripPfx ['~', '='] t with
  | some rest, _, _ => parse_python_version_fragment rest
  | none, some rest, _ => parse_python_version_fragment rest
  | none, none, some rest => parse_python_version_fragment rest
  | none, none, none => none

/-- Spec formulation: the lexicographic maximum of two
`(major, minor)` pairs. -/
def lexMaxPair (a b : Nat × Nat) : Nat × Nat :=
  if a.1 < b.1 ∨ (a.1 = b.1 ∧ a.2 < b.2) then b else a

/-- Spec formulation of §4.5's aggregation: the maximum `(major, minor)`
pair over all recognized tokens, or `none` when no token is recognized. -/
def effectiveMinimumVersion (spec : List Char) : Option (Nat × Nat) :=
  match (splitBy (fun c => c == ',' || c == ' ') spec).filterMap recognizedToken with
  | [] => none
  | v :: vs => some (vs.foldl lexMaxPair v)

/-- Spec formulation of §4.5's selection rule: the newer spelling iff
the effective minimum is at least `(3, 11)` lexicographically; the newer
spelling by default when the constraint is absent or nothing parses. -/
def selectStrategySpec (spec : Option (List Char)) : SelfImportStrategy :=
  match spec with
  | none => SelfImportStrategy.Typing
  | some s =>
    match effectiveMinimumVersion s with
    | none => SelfImportStrategy.Typing
    | some v =>
      if 3 < v.1 ∨ (v.1 = 3 ∧ 11 ≤ v.2) then SelfImportStrategy.Typing
      else SelfImportStrategy.TypingExtensions

theorem max_version_eq_lexMaxPair (a b : Nat × Nat) :
    max_version a b = lexMaxPair a b := by
  rcases a with ⟨a1, a2⟩
  rcases b with ⟨b1, b2⟩
  simp only [max_version, lexMaxPair]
  by_cases hp : a1 < b1 ∨ (a1 = b1 ∧ a2 < b2)
  · have hb : (b1 > a1 || (b1 == a1 && b2 > a2)) = true := by
      simp only [gt_iff_lt, Bool.or_eq_true, decide_eq_true_eq, Bool.and_eq_true,
        beq_iff_eq]
      omega
    simp [hb, hp]
  · have hb : (b1 > a1 || (b1 == a1 && b2 > a2)) = false := by
      simp only [gt_iff_lt, Bool.or_eq_false_iff, decide_eq_false_iff_not,
        Bool.and_eq_false_iff, beq_eq_false_iff_ne, ne_eq, decide_eq_false_iff_not]
      omega
    simp [hb, hp]

theorem minimumVersionStep_eq_recognized (acc : Option (Nat × Nat)) (tok : List Char) :
    minimumVersionStep acc tok =
      match recognizedToken tok with
      | some v => some (match acc with
          | some c => max_version c v
          | none => v)
      | none => acc := by
  unfold minimumVersionStep recognizedToken
  by_cases he : (trimChars tok).isEmpty
  · have : trimChars tok = [] := by
      cases h : trimChars tok with
      | nil => rfl
      | cons a l => rw [h] at he; simp [List.isEmpty] at he
    simp only [this]
    simp [stripPfx]
  · simp only [he]
    cases h1 : stripPfx ['>', '='] (trimChars tok) <;>
      cases h2 : stripPfx ['=', '='] (trimChars tok) <;>
        cases h3 : stripPfx ['~', '='] (trimChars tok) <;>
          simp_all

theorem foldl_minimumVersionStep (l : List (List Char)) (acc : Option (Nat × Nat)) :
    l.foldl minimumVersionStep acc =
      (l.filterMap recognizedToken).foldl
        (fun a v => some (match a with
          | some c => max_version c v
          | none => v)) acc := by
  induction l generalizing acc with
  | nil => rfl
  | cons hd tl ih =>
    rw [List.foldl_cons, minimumVersionStep_eq_recognized]
    cases h : recognizedToken hd with
    | none => simp [List.filterMap_cons, h, ih]
    | some v => simp [List.filterMap_cons, h, ih]

theorem foldl_mergeSome (vs : List (Nat × Nat)) (c : Nat × Nat) :
    vs.foldl (fun a v => some (match a with
        | some cur => max_version cur v
        | none => v)) (some c) = some (vs.foldl max_version c) := by
  induction vs generalizing c with
  | nil => rfl
  | cons hd tl ih => simp [ih]

theorem foldl_max_version_eq_lex (vs : List (Nat × Nat)) (c : Nat × Nat) :
    vs.foldl max_version c = vs.foldl lexMaxPair c := by
  induction vs generalizing c with
  | nil => rfl
  | cons hd tl ih =>
    rw [List.foldl_cons, List.foldl_cons, max_version_eq_lexMaxPair, ih]

theorem parse_minimum_eq_effective (s : List Char) :
    parse_minimum_python_version s = effectiveMinimumVersion s := by
  unfold parse_minimum_python_version effectiveMinimumVersion
  rw [foldl_minimumVersionStep]
  cases h : (splitBy (fun c => c == ',' || c == ' ') s).filterMap recognizedToken with
  | nil => rfl
  | cons v vs =>
    simp only [List.foldl_cons]
    rw [foldl_mergeSome, foldl_max_version_eq_lex]

/-- C2: each comma/space-separated token of the version-constraint
string with a recognized `">="`, `"=="` or `"~="` prefix parses (via the
fragment parser, minor defaulting to 0) to a `(major, minor)` pair; the
effective minimum is the maximum such pair; the newer self-import
strategy (`Typing`) is chosen iff that pair is at least `(3, 11)` and
also by default when the constraint is absent or no token parses; in
particular `">=3.11"` selects the newer strategy and `">=3.8, <3.12"`
aggregates to `(3, 8)` and selects the older one. -/
theorem C2_version_gating :
    (∀ s : List Char, parse_minimum_python_version s = effectiveMinimumVersion s)
    ∧ (∀ s : Option (List Char),
        configure_self_import_strategy_from_requires_python s = selectStrategySpec s)
    ∧ parse_minimum_python_version ">=3.11".toList = some (3, 11)
    ∧ configure_self_import_strategy_from_requires_python (some ">=3.11".toList)
        = SelfImportStrategy.Typing
    ∧ parse_minimum_python_version ">=3.8, <3.12".toList = some (3, 8)
    ∧ configure_self_import_strategy_from_requires_python (some ">=3.8, <3.12".toList)
        = SelfImportStrategy.TypingExtensions
    ∧ configure_self_import_strategy_from_requires_python none
        = SelfImportStrategy.Typing := by
  refine ⟨parse_minimum_eq_effective, ?_, by decide, by decide, by decide, by decide, rfl⟩
  intro s
  cases s with
  | none => rfl
  | some s =>
    have hps := parse_minimum_eq_effective s
    simp only [configure_self_import_strategy_from_requires_python, selectStrategySpec,
      Option.bind, hps]
    cases h : effectiveMinimumVersion s with
    | none => rfl
    | some v =>
      rcases v with ⟨maj, mnr⟩
      by_cases hp : 3 < maj ∨ (maj = 3 ∧ 11 ≤ mnr)
      · have hb : (maj > 3 || (maj == 3 && mnr ≥ 11)) = true := by
          simp only [gt_iff_lt, ge_iff_le, Bool.or_eq_true, decide_eq_true_eq,
            Bool.and_eq_true, beq_iff_eq]
          omega
        simp [hb, hp]
      · have hb : (maj > 3 || (maj == 3 && mnr ≥ 11)) = false := by
          simp only [gt_iff_lt, ge_iff_le, Bool.or_eq_false_iff,
            decide_eq_false_iff_not, Bool.and_eq_false_iff, beq_eq_false_iff_ne,
            ne_eq]
          omega
        simp [hb, hp]

/-! ## Entity IR: `TypeInfo`, parameters, members, methods -/

/-- Identity key of a type (`std::any::TypeId` produced by the
`struct_id`/`enum_id` descriptor thunks), embedded as a `Nat`. -/
abbrev TypeId := Nat

/-- Embedding of `TypeInfo` (the resolved "how a type is printed" value,
spec §3): its textual name plus the set of imports that printing
requires, here a list of module names. -/
structure TypeInfo where
  name : String
  importRefs : List String
deriving DecidableEq, Repr

/-- Modelled from the spec: `TypeInfo::self_type()` (the stub_type module
is not under src/), the distinguished "return the enclosing type itself"
type of §4.5, whose import is the version-gated self-import. -/
def TypeInfo.self_type : TypeInfo :=
  { name := "Self", importRefs := ["typing"] }

/-- Modelled from the spec: `TypeInfo::builtin` (stub_type module not
under src/), a primitive type resolved via the fixed table of §4.1,
needing no import. -/
def TypeInfo.builtin (name : String) : TypeInfo :=
  { name := name, importRefs := [] }

/-- Modelled from the spec: `TypeInfo::any()` (stub_type module not
under src/), the unconstrained type, importing `typing`. -/
def TypeInfo.any : TypeInfo :=
  { name := "typing.Any", importRefs := ["typing"] }

/-- Modelled from the spec: `type_info::ParameterKind` (type_info.rs is
not under src/) — the passing kinds of §2: positional-only,
positional-or-keyword, keyword-only and the two variadic forms. -/
inductive ParameterKind where
  | PositionalOnly
  | PositionalOrKeyword
  | KeywordOnly
  | VarArgs
  | KwArgs
deriving DecidableEq, Repr

/-- Modelled from the spec: `type_info::ParameterDefault` (type_info.rs
is not under src/) — either no default or a deferred renderer, embedded
here as the text that renderer produces. -/
inductive ParameterDefault where
  | None
  | Expr (text : String)
deriving DecidableEq, Repr

/-- Modelled from the spec: `type_info::ParameterInfo` (type_info.rs is
not under src/): one parameter descriptor, with its type resolver
already evaluated to a `TypeInfo`. -/
structure ParameterInfo where
  name : String
  kind : ParameterKind
  type_info : TypeInfo
  default : ParameterDefault
deriving DecidableEq, Repr

/-- Embedding of `generate::Parameter` as used in variant_methods.rs:
same fields as `ParameterInfo`. -/
structure Parameter where
  name : String
  kind : ParameterKind
  type_info : TypeInfo
  default : ParameterDefault
deriving DecidableEq, Repr

/-- Modelled from the spec: `generate::Parameters` (parameter.rs is not
under src/), the kind-grouped parameter list of §4.3, constructed in
variant_methods.rs with fields `positional_or_keyword` etc. -/
structure Parameters where
  positional_only : List Parameter
  positional_or_keyword : List Parameter
  keyword_only : List Parameter
  var_args : Option Parameter
  kw_args : Option Parameter
deriving DecidableEq, Repr

/-- Embedding of `Parameters::new()`: the empty parameter list. -/
def Parameters.new : Parameters :=
  { positional_only := [], positional_or_keyword := [], keyword_only := [],
    var_args := none, kw_args := none }

/-- Conversion of one descriptor parameter into the IR parameter. -/
def Parameter.ofInfo (i : ParameterInfo) : Parameter :=
  { name := i.name, kind := i.kind, type_info := i.type_info, default := i.default }

/-- Modelled from the spec: `Parameters::from_infos` (parameter.rs is
not under src/): group the descriptor parameters by their kind,
preserving declaration order within each group (§4.3). -/
def Parameters.from_infos (infos : List ParameterInfo) : Parameters :=
  { positional_only :=
      ((infos.filter (fun i => i.kind = ParameterKind.PositionalOnly)).map Parameter.ofInfo),
    positional_or_keyword :=
      ((infos.filter (fun i => i.kind = ParameterKind.PositionalOrKeyword)).map Parameter.ofInfo),
    keyword_only :=
      ((infos.filter (fun i => i.kind = ParameterKind.KeywordOnly)).map Parameter.ofInfo),
    var_args :=
      ((infos.find? (fun i => i.kind = ParameterKind.VarArgs)).map Parameter.ofInfo),
    kw_args :=
      ((infos.find? (fun i => i.kind = ParameterKind.KwArgs)).map Parameter.ofInfo) }

/-- Emptiness test of a `Parameters` value (`Parameters::is_empty`,
parameter.rs not under src/; used by the method renderer). -/
def Parameters.isEmptyP (ps : Parameters) : Bool :=
  ps.positional_only.isEmpty && ps.positional_or_keyword.isEmpty &&
  ps.keyword_only.isEmpty && ps.var_args.isNone && ps.kw_args.isNone

/-- Embedding of `type_info::MethodType` (variants visible in
method.rs): static, classmethod, instance, or constructor form. -/
inductive MethodType where
  | Static
  | Class
  | Instance
  | New
deriving DecidableEq, Repr

/-- Modelled from the spec: `DeprecatedInfo` (not under src/), carrying
the deprecation marker line the renderer prints (§4.6). -/
structure DeprecatedInfo where
  marker : String
deriving DecidableEq, Repr

/-- Embedding of `type_info::IgnoreTarget` (variants visible in
method.rs): suppress all diagnostics or a specific rule list. -/
inductive IgnoreTarget where
  | All
  | Specified (rules : List String)
deriving DecidableEq, Repr

/-- Embedding of `generate::MethodDef` (method.rs:10). -/
structure MethodDef where
  name : String
  parameters : Parameters
  ret : TypeInfo
  doc : String
  type : MethodType
  is_async : Bool
  deprecated : Option DeprecatedInfo
  type_ignored : Option IgnoreTarget
  is_abstract : Bool
deriving DecidableEq, Repr

/-- Modelled from the spec: `type_info::MethodInfo` (type_info.rs is not
under src/): a method descriptor with the fields read by
`MethodDef::from` in method.rs, the return-type resolver already
evaluated. -/
structure MethodInfo where
  name : String
  parameters : List ParameterInfo
  ret : TypeInfo
  doc : String
  type : MethodType
  is_async : Bool
  deprecated : Option DeprecatedInfo
  type_ignored : Option IgnoreTarget
  is_abstract : Bool
deriving DecidableEq, Repr

/-- Embedding of `impl From<&MethodInfo> for MethodDef` (method.rs:37):
evaluate the return resolver, but replace the result by the self type
when the method kind is the constructor form `New`. -/
def MethodDef.fromInfo (info : MethodInfo) : MethodDef :=
  let return_type := if info.type = MethodType.New then TypeInfo.self_type else info.ret
  { name := info.name,
    parameters := Parameters.from_infos info.parameters,
    ret := return_type,
    doc := info.doc,
    type := info.type,
    is_async := info.is_async,
    deprecated := info.deprecated,
    type_ignored := info.type_ignored,
    is_abstract := info.is_abstract }

/-- C10: a method descriptor of constructor kind (`New`) yields a
definition whose return type is the self type, discarding whatever
return-type resolver the descriptor supplied; every other kind keeps
the descriptor's resolved return type unchanged. -/
theorem C10_constructor_returns_self_type (info : MethodInfo) :
    ((MethodDef.fromInfo info).ret
      = if info.type = MethodType.New then TypeInfo.self_type else info.ret)
    ∧ (info.type = MethodType.New →
        ∀ r : TypeInfo, MethodDef.fromInfo { info with ret := r } = MethodDef.fromInfo info)
    ∧ (info.type ≠ MethodType.New → (MethodDef.fromInfo info).ret = info.ret) := by
  refine ⟨rfl, ?_, ?_⟩
  · intro h r
    simp [MethodDef.fromInfo, h]
  · intro h
    simp [MethodDef.fromInfo, h]

/-- Concrete constructor-form method descriptor used by witnesses. -/
def exNewMethodInfo : MethodInfo :=
  { name := "__new__", parameters := [], ret := TypeInfo.builtin "int", doc := "",
    type := MethodType.New, is_async := false, deprecated := none,
    type_ignored := none, is_abstract := false }

theorem C10_constructor_returns_self_type_witness :
    exNewMethodInfo.type = MethodType.New
    ∧ (MethodDef.fromInfo exNewMethodInfo).ret = TypeInfo.self_type
    ∧ MethodDef.fromInfo { exNewMethodInfo with ret := TypeInfo.builtin "str" }
        = MethodDef.fromInfo exNewMethodInfo := by
  refine ⟨rfl, ?_, (C10_constructor_returns_self_type exNewMethodInfo).2.1 rfl
    (TypeInfo.builtin "str")⟩
  have h := (C10_constructor_returns_self_type exNewMethodInfo).1
  simpa using h

/-! ## `variant_methods.rs`: synthesized methods of tagged-enum variants -/

/-- Modelled from the spec: `type_info::MemberInfo` (type_info.rs is not
under src/): an attribute descriptor, with resolvers evaluated; the
fields are the ones read in stub_info.rs plus the `item` flag visible in
the derive snapshot test. -/
structure MemberInfo where
  name : String
  type : TypeInfo
  doc : String
  default : Option String
  deprecated : Option DeprecatedInfo
  item : Bool
deriving DecidableEq, Repr

/-- Modelled from the spec: the getter/setter descriptor of a methods
block (type_info.rs is not under src/): the fields read in
stub_info.rs, including the per-accessor `is_abstract` flag. -/
structure AccessorInfo where
  name : String
  type : TypeInfo
  doc : String
  default : Option String
  deprecated : Option DeprecatedInfo
  is_abstract : Bool
deriving DecidableEq, Repr

/-- Embedding of `type_info::VariantForm` (variants visible in the
derive snapshot and variant_methods.rs): unit, tuple or struct shape. -/
inductive VariantForm where
  | Unit
  | Tuple
  | Struct
deriving DecidableEq, Repr

/-- Embedding of `type_info::VariantInfo` (fields visible in the derive
snapshot test): one tagged-enum variant descriptor. -/
structure VariantInfo where
  pyclass_name : String
  fields : List MemberInfo
  module : Option String
  doc : String
  form : VariantForm
  constr_args : List ParameterInfo
  is_mapping : Bool
deriving DecidableEq, Repr

/-- Embedding of `type_info::PyComplexEnumInfo` (fields visible in the
derive snapshot test and stub_info.rs), with the `enum_id` thunk
evaluated to a `TypeId`. -/
structure PyComplexEnumInfo where
  pyclass_name : String
  enum_id : TypeId
  variants : List VariantInfo
  module : Option String
  doc : String
deriving DecidableEq, Repr

/-- Embedding of `IndexMap::entry(name).or_default().push(md)`: append
into the list held at `name`, keeping insertion order; a fresh name goes
to the back of the map. -/
def indexMapPush (name : String) (md : MethodDef) :
    List (String × List MethodDef) → List (String × List MethodDef)
  | [] => [(name, [md])]
  | (k, v) :: rest =>
    if k = name then (k, v ++ [md]) :: rest
    else (k, v) :: indexMapPush name md rest

/-- Embedding of the `__new__` entry built in variant_methods.rs:16-29. -/
def variantNewMethod (info : VariantInfo) : MethodDef :=
  { name := "__new__",
    parameters := Parameters.from_infos info.constr_args,
    ret := TypeInfo.self_type,
    doc := "",
    type := MethodType.New,
    is_async := false,
    deprecated := none,
    type_ignored := none,
    is_abstract := false }

/-- Embedding of the `__len__` entry built in variant_methods.rs:32-46. -/
def variantLenMethod : MethodDef :=
  { name := "__len__",
    parameters := Parameters.new,
    ret := TypeInfo.builtin "int",
    doc := "",
    type := MethodType.Instance,
    is_async := false,
    deprecated := none,
    type_ignored := none,
    is_abstract := false }

/-- Embedding of the `__getitem__` entry built in
variant_methods.rs:48-70: one positional-or-keyword `key: int`
parameter, returning `Any`. -/
def variantGetitemMethod : MethodDef :=
  { name := "__getitem__",
    parameters :=
      { Parameters.new with
        positional_or_keyword :=
          [{ name := "key", kind := ParameterKind.PositionalOrKeyword,
             type_info := TypeInfo.builtin "int", default := ParameterDefault.None }] },
    ret := TypeInfo.any,
    doc := "",
    type := MethodType.Instance,
    is_async := false,
    deprecated := none,
    type_ignored := none,
    is_abstract := false }

/-- Embedding of `get_variant_methods` (variant_methods.rs:7): an empty
map for mapping-flagged variants; otherwise a `__new__` entry, and for
tuple-shaped variants additionally `__len__` and `__getitem__`. -/
def get_variant_methods (_enum_info : PyComplexEnumInfo) (info : VariantInfo) :
    List (String × List MethodDef) :=
  if info.is_mapping then []
  else
    let methods := indexMapPush "__new__" (variantNewMethod info) []
    match info.form with
    | VariantForm.Tuple =>
      indexMapPush "__getitem__" variantGetitemMethod
        (indexMapPush "__len__" variantLenMethod methods)
    | _ => methods

/-- Spec formulation of §4.6's variant rendering: a constructor-only
pseudo-class (`__new__` over the variant's constructor parameters,
returning the self type), plus the two sequence-protocol methods for
tuple-shaped variants only; nothing at all for mapping-flagged
variants. -/
def variantMethodsSpec (info : VariantInfo) : List (String × List MethodDef) :=
  if info.is_mapping then []
  else
    ("__new__", [variantNewMethod info]) ::
      (if info.form = VariantForm.Tuple then
        [("__len__", [variantLenMethod]), ("__getitem__", [variantGetitemMethod])]
      else [])

/-- C9: the synthesized methods of a tagged-enum variant are empty when
the variant is mapping-flagged, and otherwise exactly one `__new__`
constructor taking the variant's constructor parameters and returning
the self type, plus — exactly for tuple-shaped variants — a `__len__`
returning `int` and a `__getitem__` taking one `int` parameter; any
other non-mapping shape gets only the constructor. -/
theorem C9_variant_methods (e : PyComplexEnumInfo) (info : VariantInfo) :
    get_variant_methods e info = variantMethodsSpec info := by
  unfold get_variant_methods variantMethodsSpec
  cases hm : info.is_mapping with
  | true => simp
  | false =>
    simp only [Bool.false_eq_true, if_false]
    cases hf : info.form <;> simp [indexMapPush]

/-! ## Derive side: `pyclass_complex_enum.rs` and `stub_type.rs` -/

namespace Derive

/-- Embedding of `gen_stub::util::TypeOrOverride` (variants visible in
pyclass_complex_enum.rs): a plain Rust type, or caller-supplied literal
text. -/
inductive TypeOrOverride where
  | RustType (type : String)
  | OverrideType (type_repr : String)
deriving DecidableEq, Repr

/-- Modelled from the spec: the constructor-argument record of the
derive-side variant (variant.rs is not under src/); only its
`r#type` field is read by `union_type_for_variant`. -/
structure ArgInfo where
  type : TypeOrOverride
deriving DecidableEq, Repr

/-- Embedding of the derive-side `VariantForm`. -/
inductive VariantForm where
  | Unit
  | Tuple
  | Struct
deriving DecidableEq, Repr

/-- Embedding of the derive-side `VariantInfo` fields read in
pyclass_complex_enum.rs: the generated variant name, its shape, and its
constructor arguments. -/
structure VariantInfo where
  pyclass_name : String
  form : VariantForm
  constr_args : List ArgInfo
deriving DecidableEq, Repr

/-- Semantics of the token stream emitted for one type position by
pyclass_complex_enum.rs: `type_input()` of a Rust type, a literal
`TypeInfo` with empty imports, an unqualified name, or the `|` type
operator applied to two earlier streams. -/
inductive TypeInfoExpr where
  | typeInput (type : String)
  | literalInfo (name : String)
  | unqualified (name : String)
  | orExpr (a b : TypeInfoExpr)
deriving DecidableEq, Repr

/-- Embedding of `PyComplexEnumInfo` as the derive macro sees it
(pyclass_complex_enum.rs:7). -/
structure PyComplexEnumInfo where
  pyclass_name : String
  enum_type : String
  module : Option String
  variants : List VariantInfo
  doc : String
deriving DecidableEq, Repr

/-- Embedding of derive-side `StubType` (stub_type.rs:5). -/
structure StubType where
  ty : String
  name : String
  module : Option String
  type_input_override : Option TypeInfoExpr
  type_output_override : Option TypeInfoExpr
deriving DecidableEq, Repr

/-- Embedding of `union_type_for_variant` (pyclass_complex_enum.rs:43):
a tuple-shaped variant with exactly one constructor argument contributes
that argument's own type (its `type_input()`, or the override's literal
text); every other shape contributes the unqualified reference
`EnumName.VariantName`. -/
def union_type_for_variant (enum_name : String) (variant : VariantInfo) :
    TypeInfoExpr :=
  match variant.form, variant.constr_args with
  | VariantForm.Tuple, [arg] =>
    match arg.type with
    | TypeOrOverride.RustType ty => TypeInfoExpr.typeInput ty
    | TypeOrOverride.OverrideType type_repr => TypeInfoExpr.literalInfo type_repr
  | _, _ =>
    TypeInfoExpr.unqualified (enum_name ++ "." ++ variant.pyclass_name)

/-- Embedding of `impl From<&PyComplexEnumInfo> for StubType`
(pyclass_complex_enum.rs:15): map every variant through
`union_type_for_variant`, left-fold the terms with the `|` operator
(none when there is no variant), and use the result as both the input
and the output override. -/
def stubTypeOfComplexEnum (info : PyComplexEnumInfo) : StubType :=
  let union_terms := info.variants.map (union_type_for_variant info.pyclass_name)
  let type_union : Option TypeInfoExpr :=
    match union_terms with
    | [] => none
    | first :: rest => some (rest.foldl TypeInfoExpr.orExpr first)
  { ty := info.enum_type,
    name := info.pyclass_name,
    module := info.module,
    type_input_override := type_union,
    type_output_override := type_union }

/-- Spec formulation of §4.2: the union is the left-fold with the "or"
operator of the per-variant terms, where a tuple-shaped variant with
exactly one field contributes its field's own type verbatim and every
other shape contributes `EnumName.VariantName`; an enum with zero
variants yields no override. -/
def specEnumUnion (info : PyComplexEnumInfo) : Option TypeInfoExpr :=
  match info.variants with
  | [] => none
  | v :: vs =>
    some (vs.foldl
      (fun acc w => TypeInfoExpr.orExpr acc (union_type_for_variant info.pyclass_name w))
      (union_type_for_variant info.pyclass_name v))

end Derive

/-- Concrete single-field tuple variant `circle(float)` from spec §8. -/
def circleVariant : Derive.VariantInfo :=
  { pyclass_name := "circle", form := Derive.VariantForm.Tuple,
    constr_args := [{ type := Derive.TypeOrOverride.RustType "f64" }] }

/-- Concrete zero-field variant `center` from spec §8. -/
def centerVariant : Derive.VariantInfo :=
  { pyclass_name := "center", form := Derive.VariantForm.Unit, constr_args := [] }

/-- C3: for a tagged enum the synthesized input and output overrides are
equal; they are absent exactly when the enum has no variant, and
otherwise are the left-fold by the "or" operator of the per-variant
terms, where a tuple-shaped variant with exactly one field contributes
that field's own type verbatim and every other shape contributes the
qualified reference `EnumName.VariantName`; in particular
`circle(float)` contributes its field type and `center` contributes
`Shape.center`. -/
theorem C3_tagged_enum_union (info : Derive.PyComplexEnumInfo) :
    ((Derive.stubTypeOfComplexEnum info).type_input_override
      = (Derive.stubTypeOfComplexEnum info).type_output_override)
    ∧ ((Derive.stubTypeOfComplexEnum info).type_input_override
        = Derive.specEnumUnion info)
    ∧ (info.variants = [] →
        (Derive.stubTypeOfComplexEnum info).type_input_override = none)
    ∧ (∀ v : Derive.VariantInfo, ∀ ty : String,
        v.form = Derive.VariantForm.Tuple →
        v.constr_args = [{ type := Derive.TypeOrOverride.RustType ty }] →
        Derive.union_type_for_variant info.pyclass_name v
          = Derive.TypeInfoExpr.typeInput ty)
    ∧ (∀ v : Derive.VariantInfo,
        (v.form ≠ Derive.VariantForm.Tuple ∨ v.constr_args.length ≠ 1) →
        Derive.union_type_for_variant info.pyclass_name v
          = Derive.TypeInfoExpr.unqualified
              (info.pyclass_name ++ "." ++ v.pyclass_name))
    ∧ Derive.union_type_for_variant "Shape" circleVariant
        = Derive.TypeInfoExpr.typeInput "f64"
    ∧ Derive.union_type_for_variant "Shape" centerVariant
        = Derive.TypeInfoExpr.unqualified "Shape.center" := by
  refine ⟨rfl, ?_, ?_, ?_, ?_, rfl, rfl⟩
  · unfold Derive.stubTypeOfComplexEnum Derive.specEnumUnion
    cases h : info.variants with
    | nil => rfl
    | cons v vs =>
      simp only [List.map_cons]
      rw [List.foldl_map]
  · intro h
    unfold Derive.stubTypeOfComplexEnum
    simp [h]
  · intro v ty hf ha
    unfold Derive.union_type_for_variant
    rw [hf, ha]
  · intro v h
    unfold Derive.union_type_for_variant
    rcases hf : v.form with _ | _ | _ <;> rcases ha : v.constr_args with _ | ⟨a, rest⟩ <;>
      simp_all

/-- Concrete zero-variant enum used by witnesses. -/
def exEmptyEnum : Derive.PyComplexEnumInfo :=
  { pyclass_name := "Empty", enum_type := "Empty", module := none,
    variants := [], doc := "" }

/-- Concrete two-variant enum `Shape` from spec §8, used by witnesses. -/
def exShapeEnum : Derive.PyComplexEnumInfo :=
  { pyclass_name := "Shape", enum_type := "Shape", module := none,
    variants := [circleVariant, centerVariant], doc := "" }

theorem C3_tagged_enum_union_witness :
    exEmptyEnum.variants = []
    ∧ (Derive.stubTypeOfComplexEnum exEmptyEnum).type_input_override = none
    ∧ circleVariant.form = Derive.VariantForm.Tuple
    ∧ Derive.union_type_for_variant "Shape" circleVariant
        = Derive.TypeInfoExpr.typeInput "f64"
    ∧ (centerVariant.form ≠ Derive.VariantForm.Tuple
        ∨ centerVariant.constr_args.length ≠ 1)
    ∧ Derive.union_type_for_variant "Shape" centerVariant
        = Derive.TypeInfoExpr.unqualified ("Shape" ++ "." ++ "center") := by
  refine ⟨rfl, (C3_tagged_enum_union exEmptyEnum).2.2.1 rfl, rfl,
    (C3_tagged_enum_union exShapeEnum).2.2.2.1 circleVariant "f64" rfl rfl,
    Or.inl (by decide),
    (C3_tagged_enum_union exShapeEnum).2.2.2.2.1 centerVariant (Or.inl (by decide))⟩

/-! ## `method.rs`: rendering of one method -/

/-- Modelled from the spec: the `indent()` helper of the generate module
(not under src/): one indentation unit of rendered class members. -/
def indent : String := "    "

/-- Modelled from the spec: the `Display` of a `TypeInfo` (stub_type
module not under src/): its textual type name (§4.1). -/
def renderTypeInfo (t : TypeInfo) : String := t.name

/-- Modelled from the spec: rendering of one parameter
(parameter.rs is not under src/): `name: type` with an optional
rendered default. -/
def renderParameter (p : Parameter) : String :=
  p.name ++ ": " ++ renderTypeInfo p.type_info ++
    (match p.default with
      | ParameterDefault.None => ""
      | ParameterDefault.Expr e => " = " ++ e)

/-- Modelled from the spec: the `Display` of `Parameters`
(parameter.rs is not under src/): the kind groups in declaration order
(§4.3), joined by commas. -/
def renderParameters (ps : Parameters) : String :=
  String.intercalate ", "
    ((ps.positional_only.map renderParameter)
      ++ (ps.positional_or_keyword.map renderParameter)
      ++ (ps.keyword_only.map renderParameter)
      ++ (match ps.var_args with
          | some p => ["*" ++ renderParameter p]
          | none => [])
      ++ (match ps.kw_args with
          | some p => ["**" ++ renderParameter p]
          | none => []))

/-- Modelled from the spec: `docstring::write_docstring` (not under
src/): the docstring as an indented documentation block following the
signature (§4.6). -/
def write_docstring (doc : String) (ind : String) : String :=
  ind ++ "\"\"\"\n" ++ doc ++ "\n" ++ ind ++ "\"\"\"\n"

/-- Embedding of the `type: ignore` comment computed in
method.rs:101-120: a blanket comment for `All`, or the bracketed
comma-joined rule list for `Specified` (rule names are rendered as
written; unknown ones are only logged). -/
def typeIgnoreComment (t : IgnoreTarget) : String :=
  match t with
  | IgnoreTarget.All => "  # type: ignore"
  | IgnoreTarget.Specified rules =>
    "  # type: ignore[" ++ String.intercalate "," rules ++ "]"

/-- Embedding of `impl fmt::Display for MethodDef` (method.rs:57):
deprecation marker line, kind decorators, signature line with receiver
and return type, then either the docstring block (comment appended to
the signature line first) or the ` ...` empty-body marker followed by
the comment. -/
def renderMethodDef (m : MethodDef) : String :=
  let ind := indent
  let async_ := if m.is_async then "async " else ""
  let dep := match m.deprecated with
    | some d => ind ++ d.marker ++ "\n"
    | none => ""
  let params_str :=
    if Parameters.isEmptyP m.parameters then ""
    else ", " ++ renderParameters m.parameters
  let sig := match m.type with
    | MethodType.Static =>
      ind ++ "@staticmethod\n"
        ++ (if m.is_abstract then ind ++ "@abc.abstractmethod\n" else "")
        ++ ind ++ async_ ++ "def " ++ m.name ++ "(" ++ renderParameters m.parameters ++ ")"
    | MethodType.Class =>
      ind ++ "@classmethod\n"
        ++ (if m.is_abstract then ind ++ "@abc.abstractmethod\n" else "")
        ++ ind ++ async_ ++ "def " ++ m.name ++ "(cls" ++ params_str ++ ")"
    | MethodType.New =>
      (if m.is_abstract then ind ++ "@abc.abstractmethod\n" else "")
        ++ ind ++ async_ ++ "def " ++ m.name ++ "(cls" ++ params_str ++ ")"
    | MethodType.Instance =>
      (if m.is_abstract then ind ++ "@abc.abstractmethod\n" else "")
        ++ ind ++ async_ ++ "def " ++ m.name ++ "(self" ++ params_str ++ ")"
  let head := dep ++ sig ++ " -> " ++ renderTypeInfo m.ret ++ ":"
  let tic := (m.type_ignored.map typeIgnoreComment).getD ""
  if m.doc = "" then head ++ " ..." ++ tic ++ "\n"
  else head ++ tic ++ "\n" ++ write_docstring m.doc (ind ++ ind)

/-- Concrete method with a type-ignore set and an empty docstring. -/
def exIgnoredMethod : MethodDef :=
  { name := "foo", parameters := Parameters.new, ret := TypeInfo.builtin "int",
    doc := "", type := MethodType.Instance, is_async := false,
    deprecated := none, type_ignored := some IgnoreTarget.All,
    is_abstract := false }

/-- C6 counterexample: with a type-ignore set and an empty docstring the
rendered signature line places the diagnostic-suppression comment AFTER
the ` ...` empty-body marker, not before it as the claim states. -/
theorem C6_counterexample :
    renderMethodDef exIgnoredMethod
      = "    def foo(self) -> int: ...  # type: ignore\n"
    ∧ renderMethodDef exIgnoredMethod
      ≠ "    def foo(self) -> int:  # type: ignore ...\n" := by
  constructor
  · rfl
  · decide

/-- C6 (amended): with a type-ignore set, an empty docstring yields a
signature line terminated by the empty-body marker with the suppression
comment appended AFTER the marker at the end of that same line, while a
non-empty docstring yields the comment appended to the signature line
(right after the colon) before the docstring block. -/
theorem C6_type_ignore_placement (m : MethodDef) (t : IgnoreTarget)
    (ht : m.type_ignored = some t) :
    (m.doc = "" →
      ∃ sig, renderMethodDef m = sig ++ " ..." ++ typeIgnoreComment t ++ "\n")
    ∧ (m.doc ≠ "" →
      ∃ sig, renderMethodDef m
        = sig ++ ":" ++ typeIgnoreComment t ++ "\n"
            ++ write_docstring m.doc (indent ++ indent)) := by
  constructor
  · intro hd
    unfold renderMethodDef
    rw [ht, hd]
    simp only [Option.map_some, Option.getD_some, if_pos rfl]
    exact ⟨_, rfl⟩
  · intro hd
    unfold renderMethodDef
    rw [ht]
    simp only [Option.map_some, Option.getD_some, if_neg hd]
    exact ⟨_, rfl⟩

/-- Concrete method with a type-ignore set and a docstring. -/
def exIgnoredDocMethod : MethodDef :=
  { exIgnoredMethod with doc := "Docs." }

theorem C6_type_ignore_placement_witness :
    (exIgnoredMethod.type_ignored = some IgnoreTarget.All
      ∧ exIgnoredMethod.doc = ""
      ∧ ∃ sig, renderMethodDef exIgnoredMethod
          = sig ++ " ..." ++ typeIgnoreComment IgnoreTarget.All ++ "\n")
    ∧ (exIgnoredDocMethod.type_ignored = some IgnoreTarget.All
      ∧ exIgnoredDocMethod.doc ≠ ""
      ∧ ∃ sig, renderMethodDef exIgnoredDocMethod
          = sig ++ ":" ++ typeIgnoreComment IgnoreTarget.All ++ "\n"
              ++ write_docstring exIgnoredDocMethod.doc (indent ++ indent)) := by
  refine ⟨⟨rfl, rfl, ?_⟩, ⟨rfl, by decide, ?_⟩⟩
  · exact (C6_type_ignore_placement exIgnoredMethod IgnoreTarget.All rfl).1 rfl
  · exact (C6_type_ignore_placement exIgnoredDocMethod IgnoreTarget.All rfl).2
      (by decide)
/-! ## Sorted association lists: the embedding of `BTreeMap` and
`BTreeSet` -/

/-- Boolean key comparison with the linear-order laws needed by the
sorted-map embedding.  A boolean comparator is used (rather than the
ambient order instances) so that every map operation evaluates by
kernel reduction on concrete keys. -/
class KeyCmp (K : Type) where
  ltB : K → K → Bool
  eqB : K → K → Bool
  eqB_iff : ∀ a b : K, eqB a b = true ↔ a = b
  ltB_irrefl : ∀ a : K, ltB a a = false
  ltB_trans : ∀ a b c : K, ltB a b = true → ltB b c = true → ltB a c = true
  ltB_trichot : ∀ a b : K, ltB a b = true ∨ a = b ∨ ltB b a = true

section SortedMap

variable {K : Type} [KeyCmp K] {V : Type}

theorem eqB_refl (a : K) : KeyCmp.eqB a a = true :=
  (KeyCmp.eqB_iff a a).mpr rfl

theorem eqB_of_ne {a b : K} (h : a ≠ b) : KeyCmp.eqB a b = false := by
  cases hv : KeyCmp.eqB a b with
  | false => rfl
  | true => exact absurd ((KeyCmp.eqB_iff a b).mp hv) h

theorem ne_of_ltB {a b : K} (h : KeyCmp.ltB a b = true) : a ≠ b := by
  intro he
  subst he
  rw [KeyCmp.ltB_irrefl] at h
  exact absurd h (by simp)

theorem ltB_asymm {a b : K} (h : KeyCmp.ltB a b = true) : KeyCmp.ltB b a = false := by
  cases hv : KeyCmp.ltB b a with
  | false => rfl
  | true =>
    have := KeyCmp.ltB_trans a b a h hv
    rw [KeyCmp.ltB_irrefl] at this
    exact absurd this (by simp)

/-- Embedding of `BTreeMap::insert`: place `(k, v)` at its key-sorted
position, replacing an existing binding of `k`. -/
def insertSorted (k : K) (v : V) : List (K × V) → List (K × V)
  | [] => [(k, v)]
  | (k', v') :: rest =>
    if KeyCmp.ltB k k' then (k, v) :: (k', v') :: rest
    else if KeyCmp.eqB k k' then (k, v) :: rest
    else (k', v') :: insertSorted k v rest

/-- Embedding of `BTreeMap::get`: the value bound to `k`, if any. -/
def lookupS (k : K) : List (K × V) → Option V
  | [] => none
  | (k', v') :: rest => if KeyCmp.eqB k k' then some v' else lookupS k rest

/-- Key-sortedness of an association list (the `BTreeMap` invariant). -/
def sortedKeys (l : List (K × V)) : Prop :=
  l.Pairwise (fun a b => KeyCmp.ltB a.1 b.1 = true)

/-- Positional insertion into a sorted element list. -/
def insertPos (a : K) : List K → List K
  | [] => [a]
  | b :: rest => if KeyCmp.ltB a b then a :: b :: rest else b :: insertPos a rest

/-- Boolean membership via the key comparator. -/
def memB (a : K) : List K → Bool
  | [] => false
  | b :: rest => if KeyCmp.eqB a b then true else memB a rest

theorem memB_iff (a : K) (l : List K) : memB a l = true ↔ a ∈ l := by
  induction l with
  | nil => simp [memB]
  | cons hd tl ih =>
    by_cases he : a = hd
    · subst he
      simp [memB, eqB_refl]
    · simp [memB, eqB_of_ne he, ih, he]

/-- Embedding of `BTreeSet::insert`: a no-op when the element is
present, otherwise positional insertion (the two agree with the B-tree
on sorted lists, the only reachable states here). -/
def insertSetS (a : K) (l : List K) : List K :=
  if memB a l then l else insertPos a l

/-- Embedding of `BTreeSet::extend`: insert every element in order. -/
def extendSetS (l : List K) (new : List K) : List K :=
  new.foldl (fun acc x => insertSetS x acc) l

theorem lookupS_insertSorted_self (k : K) (v : V) (l : List (K × V)) :
    lookupS k (insertSorted k v l) = some v := by
  induction l with
  | nil => simp [insertSorted, lookupS, eqB_refl]
  | cons hd tl ih =>
    obtain ⟨k', v'⟩ := hd
    rcases KeyCmp.ltB_trichot k k' with hlt | heq | hgt
    · simp [insertSorted, hlt, lookupS, eqB_refl]
    · subst heq
      simp [insertSorted, KeyCmp.ltB_irrefl, eqB_refl, lookupS]
    · have h1 : KeyCmp.ltB k k' = false := ltB_asymm hgt
      have h2 : KeyCmp.eqB k k' = false := eqB_of_ne (ne_of_ltB hgt).symm
      simp [insertSorted, h1, h2, lookupS, ih]

theorem lookupS_insertSorted_ne {k1 k2 : K} (h : k1 ≠ k2) (v : V) (l : List (K × V)) :
    lookupS k1 (insertSorted k2 v l) = lookupS k1 l := by
  induction l with
  | nil => simp [insertSorted, lookupS, eqB_of_ne h]
  | cons hd tl ih =>
    obtain ⟨k', v'⟩ := hd
    rcases KeyCmp.ltB_trichot k2 k' with hlt | heq | hgt
    · simp [insertSorted, hlt, lookupS, eqB_of_ne h]
    · subst heq
      simp [insertSorted, KeyCmp.ltB_irrefl, eqB_refl, lookupS, eqB_of_ne h]
    · have h1 : KeyCmp.ltB k2 k' = false := ltB_asymm hgt
      have h2 : KeyCmp.eqB k2 k' = false := eqB_of_ne (ne_of_ltB hgt).symm
      by_cases hk : k1 = k'
      · subst hk
        simp [insertSorted, h1, h2, lookupS, eqB_refl]
      · simp [insertSorted, h1, h2, lookupS, eqB_of_ne hk, ih]

theorem insertSorted_comm {k1 k2 : K} (h : k1 ≠ k2) (v1 v2 : V) (l : List (K × V)) :
    insertSorted k1 v1 (insertSorted k2 v2 l)
      = insertSorted k2 v2 (insertSorted k1 v1 l) := by
  induction l with
  | nil =>
    rcases KeyCmp.ltB_trichot k1 k2 with hlt | heq | hgt
    · simp [insertSorted, hlt, ltB_asymm hlt, eqB_of_ne h, eqB_of_ne h.symm]
    · exact absurd heq h
    · simp [insertSorted, hgt, ltB_asymm hgt, eqB_of_ne h, eqB_of_ne h.symm]
  | cons hd tl ih =>
    obtain ⟨k', v'⟩ := hd
    rcases KeyCmp.ltB_trichot k1 k' with hlt1 | heq1 | hgt1 <;>
      rcases KeyCmp.ltB_trichot k2 k' with hlt2 | heq2 | hgt2
    · rcases KeyCmp.ltB_trichot k1 k2 with hlt | heq | hgt
      · simp [insertSorted, hlt1, hlt2, hlt, ltB_asymm hlt, eqB_of_ne h,
          eqB_of_ne h.symm]
      · exact absurd heq h
      · simp [insertSorted, hlt1, hlt2, hgt, ltB_asymm hgt, eqB_of_ne h,
          eqB_of_ne h.symm]
    · subst heq2
      simp [insertSorted, hlt1, KeyCmp.ltB_irrefl, eqB_refl, ltB_asymm hlt1,
        eqB_of_ne h, eqB_of_ne h.symm]
    · have f1 : KeyCmp.ltB k2 k' = false := ltB_asymm hgt2
      have f2 : KeyCmp.eqB k2 k' = false := eqB_of_ne (ne_of_ltB hgt2).symm
      have f3 : KeyCmp.ltB k1 k2 = true := KeyCmp.ltB_trans k1 k' k2 hlt1 hgt2
      simp [insertSorted, hlt1, f1, f2, f3, ltB_asymm f3, eqB_of_ne h,
        eqB_of_ne h.symm]
    · subst heq1
      simp [insertSorted, hlt2, KeyCmp.ltB_irrefl, eqB_refl, ltB_asymm hlt2,
        eqB_of_ne h, eqB_of_ne h.symm]
    · subst heq1
      exact absurd heq2.symm h
    · subst heq1
      have f1 : KeyCmp.ltB k2 k1 = false := ltB_asymm hgt2
      have f2 : KeyCmp.eqB k2 k1 = false := eqB_of_ne (ne_of_ltB hgt2).symm
      simp [insertSorted, KeyCmp.ltB_irrefl, eqB_refl, f1, f2, hgt2]
    · have f1 : KeyCmp.ltB k1 k' = false := ltB_asymm hgt1
      have f2 : KeyCmp.eqB k1 k' = false := eqB_of_ne (ne_of_ltB hgt1).symm
      have f3 : KeyCmp.ltB k2 k1 = true := KeyCmp.ltB_trans k2 k' k1 hlt2 hgt1
      simp [insertSorted, hlt2, f1, f2, f3, ltB_asymm f3, eqB_of_ne h,
        eqB_of_ne h.symm]
    · subst heq2
      have f1 : KeyCmp.ltB k1 k2 = false := ltB_asymm hgt1
      have f2 : KeyCmp.eqB k1 k2 = false := eqB_of_ne h
      simp [insertSorted, KeyCmp.ltB_irrefl, eqB_refl, f1, f2, hgt1]
    · have f1 : KeyCmp.ltB k1 k' = false := ltB_asymm hgt1
      have f2 : KeyCmp.eqB k1 k' = false := eqB_of_ne (ne_of_ltB hgt1).symm
      have f3 : KeyCmp.ltB k2 k' = false := ltB_asymm hgt2
      have f4 : KeyCmp.eqB k2 k' = false := eqB_of_ne (ne_of_ltB hgt2).symm
      simp [insertSorted, f1, f2, f3, f4, ih]

theorem insertSorted_insertSorted_self (k : K) (v1 v2 : V) (l : List (K × V)) :
    insertSorted k v1 (insertSorted k v2 l) = insertSorted k v1 l := by
  induction l with
  | nil => simp [insertSorted, KeyCmp.ltB_irrefl, eqB_refl]
  | cons hd tl ih =>
    obtain ⟨k', v'⟩ := hd
    rcases KeyCmp.ltB_trichot k k' with hlt | heq | hgt
    · simp [insertSorted, hlt, KeyCmp.ltB_irrefl, eqB_refl]
    · subst heq
      simp [insertSorted, KeyCmp.ltB_irrefl, eqB_refl]
    · have h1 : KeyCmp.ltB k k' = false := ltB_asymm hgt
      have h2 : KeyCmp.eqB k k' = false := eqB_of_ne (ne_of_ltB hgt).symm
      simp [insertSorted, h1, h2, ih]

theorem mem_insertSorted {k : K} {v : V} {l : List (K × V)} {p : K × V}
    (h : p ∈ insertSorted k v l) : p = (k, v) ∨ p ∈ l := by
  induction l with
  | nil =>
    simp [insertSorted] at h
    exact Or.inl h
  | cons hd tl ih =>
    obtain ⟨k', v'⟩ := hd
    rcases KeyCmp.ltB_trichot k k' with hlt | heq | hgt
    · simp only [insertSorted, if_pos hlt] at h
      rcases List.mem_cons.mp h with rfl | hm
      · exact Or.inl rfl
      · exact Or.inr hm
    · subst heq
      simp only [insertSorted, KeyCmp.ltB_irrefl, if_false, eqB_refl, if_true] at h
      rcases List.mem_cons.mp h with rfl | hm
      · exact Or.inl rfl
      · exact Or.inr (by simp [hm])
    · have h1 : KeyCmp.ltB k k' = false := ltB_asymm hgt
      have h2 : KeyCmp.eqB k k' = false := eqB_of_ne (ne_of_ltB hgt).symm
      simp only [insertSorted, h1, h2, if_false] at h
      rcases List.mem_cons.mp h with rfl | hm
      · exact Or.inr (by simp)
      · rcases ih hm with h' | h'
        · exact Or.inl h'
        · exact Or.inr (by simp [h'])

theorem sortedKeys_insertSorted (k : K) (v : V) {l : List (K × V)}
    (h : sortedKeys l) : sortedKeys (insertSorted k v l) := by
  induction l with
  | nil => simp [insertSorted, sortedKeys]
  | cons hd tl ih =>
    obtain ⟨k', v'⟩ := hd
    unfold sortedKeys at h
    rw [List.pairwise_cons] at h
    obtain ⟨h1, h2⟩ := h
    rcases KeyCmp.ltB_trichot k k' with hlt | heq | hgt
    · simp only [insertSorted, if_pos hlt]
      unfold sortedKeys
      rw [List.pairwise_cons]
      refine ⟨?_, List.pairwise_cons.mpr ⟨h1, h2⟩⟩
      intro p hp
      rcases List.mem_cons.mp hp with rfl | hm
      · exact hlt
      · exact KeyCmp.ltB_trans _ _ _ hlt (h1 p hm)
    · subst heq
      have he : insertSorted k v ((k, v') :: tl) = (k, v) :: tl := by
        simp [insertSorted, KeyCmp.ltB_irrefl, eqB_refl]
      rw [he]
      unfold sortedKeys
      rw [List.pairwise_cons]
      exact ⟨h1, h2⟩
    · have f1 : KeyCmp.ltB k k' = false := ltB_asymm hgt
      have f2 : KeyCmp.eqB k k' = false := eqB_of_ne (ne_of_ltB hgt).symm
      simp only [insertSorted, f1, f2, Bool.false_eq_true, if_false]
      unfold sortedKeys
      rw [List.pairwise_cons]
      refine ⟨?_, ih h2⟩
      intro p hp
      rcases mem_insertSorted hp with rfl | hm
      · exact hgt
      · exact h1 p hm

theorem lookupS_mem {k : K} {v : V} {l : List (K × V)}
    (h : lookupS k l = some v) : (k, v) ∈ l := by
  induction l with
  | nil => simp [lookupS] at h
  | cons hd tl ih =>
    obtain ⟨k', v'⟩ := hd
    by_cases hk : k = k'
    · subst hk
      simp [lookupS, eqB_refl] at h
      simp [h]
    · simp only [lookupS, eqB_of_ne hk, Bool.false_eq_true, if_false] at h
      simp [ih h]

theorem insertSorted_keys_of_mem {k : K} {l : List (K × V)} (v : V)
    (hs : sortedKeys l) (h : lookupS k l ≠ none) :
    (insertSorted k v l).map Prod.fst = l.map Prod.fst := by
  induction l with
  | nil => simp [lookupS] at h
  | cons hd tl ih =>
    obtain ⟨k', v'⟩ := hd
    unfold sortedKeys at hs
    rw [List.pairwise_cons] at hs
    by_cases hk : k = k'
    · subst hk
      simp [insertSorted, KeyCmp.ltB_irrefl, eqB_refl]
    · have hl : lookupS k tl ≠ none := by
        simpa [lookupS, eqB_of_ne hk] using h
      have hmem : ∃ w, lookupS k tl = some w := by
        cases hw : lookupS k tl with
        | none => exact absurd hw hl
        | some w => exact ⟨w, rfl⟩
      obtain ⟨w, hw⟩ := hmem
      have hgt : KeyCmp.ltB k' k = true := hs.1 (k, w) (lookupS_mem hw)
      have f1 : KeyCmp.ltB k k' = false := ltB_asymm hgt
      simp [insertSorted, f1, eqB_of_ne hk, ih hs.2 hl]

theorem insertSorted_eq_self_of_mem {k : K} {v : V} {l : List (K × V)}
    (hs : sortedKeys l) (h : lookupS k l = some v) :
    insertSorted k v l = l := by
  induction l with
  | nil => simp [lookupS] at h
  | cons hd tl ih =>
    obtain ⟨k', v'⟩ := hd
    unfold sortedKeys at hs
    rw [List.pairwise_cons] at hs
    by_cases hk : k = k'
    · subst hk
      have hv : v' = v := by simpa [lookupS, eqB_refl] using h
      simp [insertSorted, KeyCmp.ltB_irrefl, eqB_refl, hv]
    · simp only [lookupS, eqB_of_ne hk, Bool.false_eq_true, if_false] at h
      have hgt : KeyCmp.ltB k' k = true := hs.1 (k, v) (lookupS_mem h)
      have f1 : KeyCmp.ltB k k' = false := ltB_asymm hgt
      simp [insertSorted, f1, eqB_of_ne hk, ih hs.2 h]

theorem mem_insertPos (a b : K) (l : List K) :
    b ∈ insertPos a l ↔ b = a ∨ b ∈ l := by
  induction l with
  | nil => simp [insertPos]
  | cons hd tl ih =>
    cases hlt : KeyCmp.ltB a hd with
    | true =>
      simp only [insertPos, hlt, if_true, List.mem_cons]
      try tauto
    | false =>
      simp only [insertPos, hlt, Bool.false_eq_true, if_false, List.mem_cons, ih]
      try tauto

theorem mem_insertSetS (a b : K) (l : List K) :
    b ∈ insertSetS a l ↔ b = a ∨ b ∈ l := by
  unfold insertSetS
  by_cases hm : a ∈ l
  · rw [if_pos ((memB_iff a l).mpr hm)]
    constructor
    · exact Or.inr
    · intro h
      rcases h with rfl | h
      · exact hm
      · exact h
  · have : memB a l = false := by
      cases hv : memB a l with
      | false => rfl
      | true => exact absurd ((memB_iff a l).mp hv) hm
    rw [this]
    simp [mem_insertPos]

theorem mem_extendSetS_left (a : K) (l new : List K) (h : a ∈ l) :
    a ∈ extendSetS l new := by
  unfold extendSetS
  induction new generalizing l with
  | nil => exact h
  | cons hd tl ih =>
    exact ih (insertSetS hd l) ((mem_insertSetS hd a l).mpr (Or.inr h))

theorem mem_extendSetS_right (a : K) (l new : List K) (h : a ∈ new) :
    a ∈ extendSetS l new := by
  induction new generalizing l with
  | nil => simp at h
  | cons hd tl ih =>
    unfold extendSetS
    rw [List.foldl_cons]
    rcases List.mem_cons.mp h with heq | hm
    · subst heq
      exact mem_extendSetS_left a (insertSetS a l) tl
        ((mem_insertSetS a a l).mpr (Or.inl rfl))
    · exact ih (insertSetS hd l) hm

theorem insertSetS_eq_self_of_mem {a : K} {l : List K} (h : a ∈ l) :
    insertSetS a l = l := by
  simp [insertSetS, (memB_iff a l).mpr h]

theorem extendSetS_eq_self (l new : List K) (h : ∀ a ∈ new, a ∈ l) :
    extendSetS l new = l := by
  induction new generalizing l with
  | nil => rfl
  | cons hd tl ih =>
    unfold extendSetS
    rw [List.foldl_cons, insertSetS_eq_self_of_mem (h hd (by simp))]
    exact ih l (fun a ha => h a (by simp [ha]))

end SortedMap

theorem natBlt_iff (a b : Nat) : Nat.blt a b = true ↔ a < b := by
  simp [Nat.blt_eq]

instance : KeyCmp Nat where
  ltB a b := Nat.blt a b
  eqB a b := Nat.beq a b
  eqB_iff a b := by
    show Nat.beq a b = true ↔ a = b
    simp [Nat.beq_eq]
  ltB_irrefl a := by
    show Nat.blt a a = false
    cases hv : Nat.blt a a with
    | false => rfl
    | true =>
      have h1 : a < a := (natBlt_iff a a).mp hv
      exact absurd h1 (lt_irrefl a)
  ltB_trans a b c h1 h2 := by
    show Nat.blt a c = true
    have g1 : a < b := (natBlt_iff a b).mp h1
    have g2 : b < c := (natBlt_iff b c).mp h2
    exact (natBlt_iff a c).mpr (lt_trans g1 g2)
  ltB_trichot a b := by
    show Nat.blt a b = true ∨ a = b ∨ Nat.blt b a = true
    rcases Nat.lt_trichotomy a b with h | h | h
    · exact Or.inl ((natBlt_iff a b).mpr h)
    · exact Or.inr (Or.inl h)
    · exact Or.inr (Or.inr ((natBlt_iff b a).mpr h))

/-- Lexicographic order on character lists: the kernel-computable form
of the string order used by `BTreeMap<String, _>` keys. -/
def charListLt : List Char → List Char → Bool
  | _, [] => false
  | [], _ :: _ => true
  | a :: as, b :: bs =>
    if a < b then true else if a = b then charListLt as bs else false

theorem charListLt_irrefl : ∀ l : List Char, charListLt l l = false
  | [] => rfl
  | a :: as => by simp [charListLt, lt_irrefl, charListLt_irrefl as]

theorem charListLt_trans :
    ∀ l1 l2 l3 : List Char, charListLt l1 l2 = true → charListLt l2 l3 = true →
      charListLt l1 l3 = true
  | _, _, [], _, h2 => by simp [charListLt] at h2
  | _, [], _ :: _, h1, _ => by simp [charListLt] at h1
  | [], _ :: _, _ :: _, _, _ => by simp [charListLt]
  | a :: as, b :: bs, c :: cs, h1, h2 => by
    simp only [charListLt] at h1 h2 ⊢
    by_cases hab : a < b
    · by_cases hbc : b < c
      · simp [lt_trans hab hbc]
      · by_cases hbc' : b = c
        · subst hbc'
          simp [hab]
        · simp [hbc, hbc'] at h2
    · by_cases hab' : a = b
      · subst hab'
        by_cases hbc : a < c
        · simp [hbc]
        · by_cases hbc' : a = c
          · subst hbc'
            simp [lt_irrefl] at h1 h2 ⊢
            exact charListLt_trans as bs cs h1 h2
          · simp [hbc, hbc'] at h2
      · simp [hab, hab'] at h1

theorem charListLt_trichot :
    ∀ l1 l2 : List Char, charListLt l1 l2 = true ∨ l1 = l2 ∨ charListLt l2 l1 = true
  | [], [] => Or.inr (Or.inl rfl)
  | [], _ :: _ => Or.inl (by simp [charListLt])
  | _ :: _, [] => Or.inr (Or.inr (by simp [charListLt]))
  | a :: as, b :: bs => by
    rcases lt_trichotomy a b with h | h | h
    · exact Or.inl (by simp [charListLt, h])
    · subst h
      rcases charListLt_trichot as bs with h' | h' | h'
      · exact Or.inl (by simp [charListLt, lt_irrefl, h'])
      · exact Or.inr (Or.inl (by simp [h']))
      · exact Or.inr (Or.inr (by simp [charListLt, lt_irrefl, h']))
    · exact Or.inr (Or.inr (by simp [charListLt, h]))

instance : KeyCmp String where
  ltB a b := charListLt a.data b.data
  eqB a b := a.data == b.data
  eqB_iff a b := by
    constructor
    · intro h
      have : a.data = b.data := by simpa using h
      cases a
      cases b
      simp_all
    · intro h
      subst h
      simp
  ltB_irrefl a := charListLt_irrefl a.data
  ltB_trans a b c := charListLt_trans a.data b.data c.data
  ltB_trichot a b := by
    rcases charListLt_trichot a.data b.data with h | h | h
    · exact Or.inl h
    · refine Or.inr (Or.inl ?_)
      cases a
      cases b
      simp_all
    · exact Or.inr (Or.inr h)

/-! ## `stub_info.rs`: descriptors, Entity IR, builder -/

/-- Embedding of `generate::MemberDef` (fields visible in the
`add_methods` construction in stub_info.rs and spec §3). -/
structure MemberDef where
  name : String
  type : TypeInfo
  doc : String
  default : Option String
  deprecated : Option DeprecatedInfo
  is_abstract : Bool
deriving DecidableEq, Repr

/-- Modelled from the spec: `generate::FunctionDef` (function.rs is not
under src/): the rendered-function record built from a function
descriptor (§6). -/
structure FunctionDef where
  name : String
  parameters : Parameters
  ret : TypeInfo
  doc : String
  is_async : Bool
deriving DecidableEq, Repr

/-- Modelled from the spec: `generate::VariableDef` (variable.rs is not
under src/): a module-level variable record (§6). -/
structure VariableDef where
  name : String
  type : TypeInfo
deriving DecidableEq, Repr

/-- Embedding of `generate::ClassDef` (fields visible through the merge
in stub_info.rs and spec §3): the per-name getter/setter pairs and the
per-name method overload lists are key-sorted maps. -/
structure ClassDef where
  name : String
  doc : String
  bases : List String
  attrs : List MemberDef
  getter_setters : List (String × (Option MemberDef × Option MemberDef))
  methods : List (String × List MethodDef)
  is_abstract : Bool
deriving DecidableEq, Repr

/-- Modelled from the spec: `ClassDef::mark_abstract` (class.rs is not
under src/; called in stub_info.rs:291,308,314): mark the whole owning
class abstract. -/
def ClassDef.mark_abstract (c : ClassDef) : ClassDef :=
  { c with is_abstract := true }

/-- Embedding of `generate::EnumDef` (fields visible through the merge
in stub_info.rs; spec §3 describes it as "like ClassDef", so the
`is_abstract` flag is modelled from the spec — the merge in
stub_info.rs never sets it). -/
structure EnumDef where
  name : String
  doc : String
  attrs : List MemberDef
  getters : List MemberDef
  setters : List MemberDef
  methods : List MethodDef
  is_abstract : Bool
deriving DecidableEq, Repr

/-- Embedding of `generate::Module` (embedded as `ModuleDef`) (fields visible in stub_info.rs):
every collection is keyed by an ordered map. -/
structure ModuleDef where
  name : String
  default_module_name : String
  doc : String
  class_ : List (TypeId × ClassDef)
  enum_ : List (TypeId × EnumDef)
  function : List (String × List FunctionDef)
  variables_ : List (String × VariableDef)
  submodules : List String
deriving DecidableEq, Repr

/-- Embedding of `Module::default()`: all collections empty. -/
def ModuleDef.defaultM : ModuleDef :=
  { name := "", default_module_name := "", doc := "", class_ := [], enum_ := [],
    function := [], variables_ := [], submodules := [] }

/-- Embedding of `generate::StubInfo` (stub_info.rs:18). -/
structure StubInfo where
  modules : List (String × ModuleDef)
  python_root : String
deriving DecidableEq, Repr

/-- Embedding of `StubInfoBuilder` (stub_info.rs:172). -/
structure StubInfoBuilder where
  modules : List (String × ModuleDef)
  default_module_name : String
  python_root : String
deriving DecidableEq, Repr

/-- Embedding of `StubInfoBuilder::from_project_root` (stub_info.rs:191). -/
def newBuilder (default_module_name python_root : String) : StubInfoBuilder :=
  { modules := [], default_module_name := default_module_name,
    python_root := python_root }

/-- Modelled from the spec: `type_info::PyClassInfo` (type_info.rs is
not under src/): identity key, declared name, optional module, base
list, documentation (§6). -/
structure PyClassInfo where
  pyclass_name : String
  struct_id : TypeId
  module : Option String
  bases : List String
  doc : String
deriving DecidableEq, Repr

/-- Modelled from the spec: `type_info::PyEnumInfo` (type_info.rs is not
under src/): identity key, declared name, optional module,
documentation (§6). -/
structure PyEnumInfo where
  pyclass_name : String
  enum_id : TypeId
  module : Option String
  doc : String
deriving DecidableEq, Repr

/-- Modelled from the spec: `type_info::PyFunctionInfo` (type_info.rs is
not under src/): name, optional module, parameters, return resolver
(evaluated), documentation, async flag (§6). -/
structure PyFunctionInfo where
  name : String
  module : Option String
  parameters : List ParameterInfo
  ret : TypeInfo
  doc : String
  is_async : Bool
deriving DecidableEq, Repr

/-- Modelled from the spec: `type_info::PyVariableInfo` (type_info.rs is
not under src/): name, module, type resolver (evaluated) (§6). -/
structure PyVariableInfo where
  name : String
  module : String
  type : TypeInfo
deriving DecidableEq, Repr

/-- Modelled from the spec: `type_info::ModuleDocInfo` (type_info.rs is
not under src/): module name and its documentation resolver
(evaluated) (§6). -/
structure ModuleDocInfo where
  module : String
  doc : String
deriving DecidableEq, Repr

/-- Modelled from the spec: `type_info::PyMethodsInfo` (type_info.rs is
not under src/): the methods-block descriptor — owning identity key and
attribute/getter/setter/method lists (§6), with the fields read in
stub_info.rs. -/
structure PyMethodsInfo where
  struct_id : TypeId
  attrs : List MemberInfo
  getters : List AccessorInfo
  setters : List AccessorInfo
  methods : List MethodInfo
deriving DecidableEq, Repr

/-- Modelled from the spec: `ClassDef::from(&PyClassInfo)` (class.rs is
not under src/): the class shape carries name, bases and doc; member
collections start empty (§6 lists no members on the class-shape
descriptor). -/
def ClassDef.fromClassInfo (info : PyClassInfo) : ClassDef :=
  { name := info.pyclass_name, doc := info.doc, bases := info.bases,
    attrs := [], getter_setters := [], methods := [], is_abstract := false }

/-- Modelled from the spec: `ClassDef::from(&PyComplexEnumInfo)`
(class.rs is not under src/): the complex enum renders as a class; only
its identity-keyed insertion matters to the claims below. -/
def ClassDef.fromComplexEnumInfo (info : PyComplexEnumInfo) : ClassDef :=
  { name := info.pyclass_name, doc := info.doc, bases := [],
    attrs := [], getter_setters := [], methods := [], is_abstract := false }

/-- Modelled from the spec: `EnumDef::from(&PyEnumInfo)` (enum_.rs is
not under src/): name and doc from the descriptor, empty collections. -/
def EnumDef.fromEnumInfo (info : PyEnumInfo) : EnumDef :=
  { name := info.pyclass_name, doc := info.doc, attrs := [], getters := [],
    setters := [], methods := [], is_abstract := false }

/-- Modelled from the spec: `FunctionDef::from(&PyFunctionInfo)`
(function.rs is not under src/). -/
def FunctionDef.fromInfo (info : PyFunctionInfo) : FunctionDef :=
  { name := info.name, parameters := Parameters.from_infos info.parameters,
    ret := info.ret, doc := info.doc, is_async := info.is_async }

/-- Modelled from the spec: `VariableDef::from(&PyVariableInfo)`
(variable.rs is not under src/). -/
def VariableDef.fromInfo (info : PyVariableInfo) : VariableDef :=
  { name := info.name, type := info.type }

/-- Field update performed by `get_module` (stub_info.rs:199-205) on the
found-or-default module: set its name and the default module name. -/
def setModuleNames (name dmn : String) (m : ModuleDef) : ModuleDef :=
  { m with name := name, default_module_name := dmn }

/-- Functional rendering of `get_module` followed by a mutation `f` of
the returned module (stub_info.rs:199): look the module up (inserting a
default), set its names, apply `f`, store it back. -/
def updAt (dmn name : String) (f : ModuleDef → ModuleDef)
    (ms : List (String × ModuleDef)) : List (String × ModuleDef) :=
  insertSorted name (f (setModuleNames name dmn ((lookupS name ms).getD ModuleDef.defaultM))) ms

/-- Builder-level form of `get_module` + mutation: resolve the optional
module name against the default and update `modules`. -/
def updModule (b : StubInfoBuilder) (name? : Option String)
    (f : ModuleDef → ModuleDef) : StubInfoBuilder :=
  { b with modules :=
      updAt b.default_module_name (name?.getD b.default_module_name) f b.modules }

/-- Embedding of `StubInfoBuilder::add_class` (stub_info.rs:226). -/
def add_class (b : StubInfoBuilder) (info : PyClassInfo) : StubInfoBuilder :=
  updModule b info.module (fun m =>
    { m with class_ := insertSorted info.struct_id (ClassDef.fromClassInfo info) m.class_ })

/-- Embedding of `StubInfoBuilder::add_complex_enum` (stub_info.rs:232):
the complex enum is inserted into the `class` map under its enum id. -/
def add_complex_enum (b : StubInfoBuilder) (info : PyComplexEnumInfo) : StubInfoBuilder :=
  updModule b info.module (fun m =>
    { m with class_ := insertSorted info.enum_id (ClassDef.fromComplexEnumInfo info) m.class_ })

/-- Embedding of `StubInfoBuilder::add_enum` (stub_info.rs:238). -/
def add_enum (b : StubInfoBuilder) (info : PyEnumInfo) : StubInfoBuilder :=
  updModule b info.module (fun m =>
    { m with enum_ := insertSorted info.enum_id (EnumDef.fromEnumInfo info) m.enum_ })

/-- Embedding of `StubInfoBuilder::add_function` (stub_info.rs:244):
append into the per-name overload list. -/
def add_function (b : StubInfoBuilder) (info : PyFunctionInfo) : StubInfoBuilder :=
  updModule b info.module (fun m =>
    { m with function := (insertSorted info.name
        (((lookupS info.name m.function).getD []) ++ [FunctionDef.fromInfo info])
        m.function) })

/-- Embedding of `StubInfoBuilder::add_variable` (stub_info.rs:253):
single-slot insert keyed by name. -/
def add_variable (b : StubInfoBuilder) (info : PyVariableInfo) : StubInfoBuilder :=
  updModule b (some info.module) (fun m =>
    { m with variables_ := insertSorted info.name (VariableDef.fromInfo info) m.variables_ })

/-- Embedding of `StubInfoBuilder::add_module_doc` (stub_info.rs:259). -/
def add_module_doc (b : StubInfoBuilder) (info : ModuleDocInfo) : StubInfoBuilder :=
  updModule b (some info.module) (fun m => { m with doc := info.doc })

/-- Conversion of an attribute descriptor performed in
stub_info.rs:268-275 and 325-332: the `is_abstract` flag is forced to
`false` for attributes. -/
def attrToMember (attr : MemberInfo) : MemberDef :=
  { name := attr.name, type := attr.type, doc := attr.doc, default := attr.default,
    deprecated := attr.deprecated, is_abstract := false }

/-- Conversion of a getter/setter descriptor performed in
stub_info.rs:282-289 etc.: the accessor's own `is_abstract` is kept. -/
def accessorToMember (a : AccessorInfo) : MemberDef :=
  { name := a.name, type := a.type, doc := a.doc, default := a.default,
    deprecated := a.deprecated, is_abstract := a.is_abstract }

/-- Embedding of the getter loop body (stub_info.rs:277-293): store the
getter in slot `.0` of the name's pair, keep slot `.1`, and mark the
class abstract when the getter is abstract. -/
def applyGetter (e : ClassDef) (g : AccessorInfo) : ClassDef :=
  let pair := (lookupS g.name e.getter_setters).getD (none, none)
  let e' := { e with getter_setters :=
      (insertSorted g.name (some (accessorToMember g), pair.2) e.getter_setters) }
  if g.is_abstract then ClassDef.mark_abstract e' else e'

/-- Embedding of the setter loop body (stub_info.rs:294-310): store the
setter in slot `.1` of the name's pair, keep slot `.0`, and mark the
class abstract when the setter is abstract. -/
def applySetter (e : ClassDef) (s : AccessorInfo) : ClassDef :=
  let pair := (lookupS s.name e.getter_setters).getD (none, none)
  let e' := { e with getter_setters :=
      (insertSorted s.name (pair.1, some (accessorToMember s)) e.getter_setters) }
  if s.is_abstract then ClassDef.mark_abstract e' else e'

/-- Embedding of the method loop body (stub_info.rs:311-321): build the
definition, mark the class abstract when it is abstract, and append it
to the per-name overload list. -/
def applyMethod (e : ClassDef) (method : MethodInfo) : ClassDef :=
  let method_def := MethodDef.fromInfo method
  let e' := if method_def.is_abstract then ClassDef.mark_abstract e else e
  { e' with methods :=
      (insertSorted method_def.name
        (((lookupS method_def.name e'.methods).getD []) ++ [method_def])
        e'.methods) }

/-- Embedding of the class branch of `add_methods`
(stub_info.rs:266-322): append attributes, then fold the getter, setter
and method loops. -/
def mergeIntoClass (info : PyMethodsInfo) (entry : ClassDef) : ClassDef :=
  let entry := { entry with attrs := entry.attrs ++ info.attrs.map attrToMember }
  let entry := info.getters.foldl applyGetter entry
  let entry := info.setters.foldl applySetter entry
  info.methods.foldl applyMethod entry

/-- Embedding of the enum branch of `add_methods`
(stub_info.rs:323-357): plain appends; no abstract marking happens
here. -/
def mergeIntoEnum (info : PyMethodsInfo) (entry : EnumDef) : EnumDef :=
  { entry with
    attrs := entry.attrs ++ info.attrs.map attrToMember,
    getters := entry.getters ++ info.getters.map accessorToMember,
    setters := entry.setters ++ info.setters.map accessorToMember,
    methods := entry.methods ++ info.methods.map MethodDef.fromInfo }

/-- Embedding of the module scan of `add_methods` (stub_info.rs:263):
walk the modules in key order; the first module whose class map holds
the identity key receives the merge (class map checked before enum
map); `none` embeds the `unreachable!` abort when no module matches. -/
def addMethodsIn (info : PyMethodsInfo) :
    List (String × ModuleDef) → Option (List (String × ModuleDef))
  | [] => none
  | (nm, m) :: rest =>
    match lookupS info.struct_id m.class_ with
    | some entry =>
      some ((nm, { m with class_ :=
        (insertSorted info.struct_id (mergeIntoClass info entry) m.class_) }) :: rest)
    | none =>
      match lookupS info.struct_id m.enum_ with
      | some entry =>
        some ((nm, { m with enum_ :=
          (insertSorted info.struct_id (mergeIntoEnum info entry) m.enum_) }) :: rest)
      | none => (addMethodsIn info rest).map (fun r => (nm, m) :: r)

/-- Embedding of `StubInfoBuilder::add_methods` (stub_info.rs:263):
`none` is the `unreachable!` abort. -/
def add_methods (b : StubInfoBuilder) (info : PyMethodsInfo) : Option StubInfoBuilder :=
  (addMethodsIn info b.modules).map (fun ms => { b with modules := ms })

/-- Dot-separated segments of a module name (Rust `module.split('.')`). -/
def splitDots (s : String) : List String :=
  (splitBy (· == '.') s.toList).map (fun l => String.mk l)

/-- Separator-interleaved concatenation of character lists (Rust
`join` at the character level). -/
def joinBy (sep : Char) : List (List Char) → List Char
  | [] => []
  | [x] => x
  | x :: y :: rest => x ++ sep :: joinBy sep (y :: rest)

/-- Embedding of Rust `Vec<&str>::join(".")` on split segments. -/
def joinDots (parts : List String) : String :=
  String.mk (joinBy '.' (parts.map String.data))

/-- One step of the submodule-map construction (stub_info.rs:209-218):
a name with at least two segments adds its last segment to its parent
prefix's child set. -/
def submoduleMapStep (acc : List (String × List String)) (nm : String) :
    List (String × List String) :=
  let path := splitDots nm
  if path.length ≤ 1 then acc
  else
    let parent := joinDots path.dropLast
    insertSorted parent (insertSetS (path.getLastD "") ((lookupS parent acc).getD [])) acc

/-- The parent-to-children map built by `register_submodules`
(stub_info.rs:208-218), driven only by the module keys. -/
def submoduleMap (keys : List String) : List (String × List String) :=
  keys.foldl submoduleMapStep []

/-- One step of the second loop of `register_submodules`
(stub_info.rs:219-223): extend the submodule set of the parent when it
is a registered module; silently skip otherwise. -/
def applyChildren (ms : List (String × ModuleDef)) (pc : String × List String) :
    List (String × ModuleDef) :=
  match lookupS pc.1 ms with
  | some m => insertSorted pc.1 { m with submodules := extendSetS m.submodules pc.2 } ms
  | none => ms

/-- Embedding of `StubInfoBuilder::register_submodules`
(stub_info.rs:207): build the parent-to-children map from the module
keys, then extend each registered parent's submodule set. -/
def register_submodules (ms : List (String × ModuleDef)) : List (String × ModuleDef) :=
  (submoduleMap (ms.map Prod.fst)).foldl applyChildren ms

/-- Embedding of the descriptor registry as one heterogeneous list
(spec §2/§6): `inventory` iterates each descriptor kind separately, so
`build` below extracts the per-kind sublists in registry order. -/
inductive Descriptor where
  | classInfo (i : PyClassInfo)
  | complexEnumInfo (i : PyComplexEnumInfo)
  | enumInfo (i : PyEnumInfo)
  | functionInfo (i : PyFunctionInfo)
  | variableInfo (i : PyVariableInfo)
  | moduleDocInfo (i : ModuleDocInfo)
  | methodsInfo (i : PyMethodsInfo)
deriving DecidableEq, Repr

def classInfos (r : List Descriptor) : List PyClassInfo :=
  r.filterMap (fun d => match d with
    | Descriptor.classInfo i => some i
    | _ => none)

def complexEnumInfos (r : List Descriptor) : List PyComplexEnumInfo :=
  r.filterMap (fun d => match d with
    | Descriptor.complexEnumInfo i => some i
    | _ => none)

def enumInfos (r : List Descriptor) : List PyEnumInfo :=
  r.filterMap (fun d => match d with
    | Descriptor.enumInfo i => some i
    | _ => none)

def functionInfos (r : List Descriptor) : List PyFunctionInfo :=
  r.filterMap (fun d => match d with
    | Descriptor.functionInfo i => some i
    | _ => none)

def variableInfos (r : List Descriptor) : List PyVariableInfo :=
  r.filterMap (fun d => match d with
    | Descriptor.variableInfo i => some i
    | _ => none)

def moduleDocInfos (r : List Descriptor) : List ModuleDocInfo :=
  r.filterMap (fun d => match d with
    | Descriptor.moduleDocInfo i => some i
    | _ => none)

def methodsInfos (r : List Descriptor) : List PyMethodsInfo :=
  r.filterMap (fun d => match d with
    | Descriptor.methodsInfo i => some i
    | _ => none)

/-- Embedding of `StubInfoBuilder::build` (stub_info.rs:363): the shape
pass kind by kind, the behavior pass (whose abort propagates as
`none`), then the submodule derivation. -/
def build (b0 : StubInfoBuilder) (r : List Descriptor) : Option StubInfo :=
  let b1 := (classInfos r).foldl add_class b0
  let b2 := (complexEnumInfos r).foldl add_complex_enum b1
  let b3 := (enumInfos r).foldl add_enum b2
  let b4 := (functionInfos r).foldl add_function b3
  let b5 := (variableInfos r).foldl add_variable b4
  let b6 := (moduleDocInfos r).foldl add_module_doc b5
  match (methodsInfos r).foldl
      (fun ob i => ob.bind (fun b => add_methods b i)) (some b6) with
  | none => none
  | some b7 =>
    some { modules := register_submodules b7.modules, python_root := b7.python_root }

/-! ## C1 and C4: behavior-pass matching and abstract propagation -/

theorem applyGetter_attrs (e : ClassDef) (g : AccessorInfo) :
    (applyGetter e g).attrs = e.attrs := by
  unfold applyGetter ClassDef.mark_abstract
  by_cases h : g.is_abstract <;> simp [h]

theorem applySetter_attrs (e : ClassDef) (s : AccessorInfo) :
    (applySetter e s).attrs = e.attrs := by
  unfold applySetter ClassDef.mark_abstract
  by_cases h : s.is_abstract <;> simp [h]

theorem applyMethod_attrs (e : ClassDef) (m : MethodInfo) :
    (applyMethod e m).attrs = e.attrs := by
  unfold applyMethod ClassDef.mark_abstract
  by_cases h : (MethodDef.fromInfo m).is_abstract <;> simp [h]

theorem foldl_applyGetter_attrs (l : List AccessorInfo) :
    ∀ e : ClassDef, (l.foldl applyGetter e).attrs = e.attrs := by
  induction l with
  | nil => intro e; rfl
  | cons hd tl ih =>
    intro e
    rw [List.foldl_cons, ih (applyGetter e hd), applyGetter_attrs]

theorem foldl_applySetter_attrs (l : List AccessorInfo) :
    ∀ e : ClassDef, (l.foldl applySetter e).attrs = e.attrs := by
  induction l with
  | nil => intro e; rfl
  | cons hd tl ih =>
    intro e
    rw [List.foldl_cons, ih (applySetter e hd), applySetter_attrs]

theorem foldl_applyMethod_attrs (l : List MethodInfo) :
    ∀ e : ClassDef, (l.foldl applyMethod e).attrs = e.attrs := by
  induction l with
  | nil => intro e; rfl
  | cons hd tl ih =>
    intro e
    rw [List.foldl_cons, ih (applyMethod e hd), applyMethod_attrs]

theorem mergeIntoClass_attrs (info : PyMethodsInfo) (e : ClassDef) :
    (mergeIntoClass info e).attrs = e.attrs ++ info.attrs.map attrToMember := by
  unfold mergeIntoClass
  rw [foldl_applyMethod_attrs, foldl_applySetter_attrs, foldl_applyGetter_attrs]

theorem addMethodsIn_none_iff (info : PyMethodsInfo) (l : List (String × ModuleDef)) :
    addMethodsIn info l = none ↔
      ∀ p ∈ l, lookupS info.struct_id p.2.class_ = none
        ∧ lookupS info.struct_id p.2.enum_ = none := by
  induction l with
  | nil => simp [addMethodsIn]
  | cons hd tl ih =>
    obtain ⟨nm, m⟩ := hd
    cases hc : lookupS info.struct_id m.class_ with
    | some e => simp [addMethodsIn, hc]
    | none =>
      cases he : lookupS info.struct_id m.enum_ with
      | some e => simp [addMethodsIn, hc, he]
      | none =>
        simp [addMethodsIn, hc, he, Option.map_eq_none', ih]

/-- C1: a methods-block descriptor whose identity key matches no class
and no enum in any module makes `add_methods` abort (`unreachable!`,
embedded as `none`); conversely a match yields a successful merge, and
the merge appends the block's contents into the matched entity. -/
theorem C1_unmatched_block_aborts (b : StubInfoBuilder) (info : PyMethodsInfo) :
    (add_methods b info = none ↔
      ∀ p ∈ b.modules, lookupS info.struct_id p.2.class_ = none
        ∧ lookupS info.struct_id p.2.enum_ = none)
    ∧ ((∃ p ∈ b.modules, lookupS info.struct_id p.2.class_ ≠ none
          ∨ lookupS info.struct_id p.2.enum_ ≠ none) →
        ∃ b' : StubInfoBuilder, add_methods b info = some b')
    ∧ (∀ e : ClassDef,
        (mergeIntoClass info e).attrs = e.attrs ++ info.attrs.map attrToMember)
    ∧ (∀ e : EnumDef, mergeIntoEnum info e = { e with
        attrs := e.attrs ++ info.attrs.map attrToMember,
        getters := e.getters ++ info.getters.map accessorToMember,
        setters := e.setters ++ info.setters.map accessorToMember,
        methods := e.methods ++ info.methods.map MethodDef.fromInfo }) := by
  have hiff : add_methods b info = none ↔
      ∀ p ∈ b.modules, lookupS info.struct_id p.2.class_ = none
        ∧ lookupS info.struct_id p.2.enum_ = none := by
    unfold add_methods
    rw [Option.map_eq_none']
    exact addMethodsIn_none_iff info b.modules
  refine ⟨hiff, ?_, mergeIntoClass_attrs info, fun e => rfl⟩
  intro h
  cases hres : add_methods b info with
  | some b' => exact ⟨b', rfl⟩
  | none =>
    obtain ⟨p, hp, hne⟩ := h
    have := (hiff.mp hres) p hp
    rcases hne with hne | hne
    · exact absurd this.1 hne
    · exact absurd this.2 hne

/-- Concrete class-shape descriptor used by witnesses. -/
def exClassInfo : PyClassInfo :=
  { pyclass_name := "C", struct_id := 1, module := some "m", bases := [], doc := "" }

/-- Concrete module hosting the class of `exClassInfo`. -/
def exHostModule : ModuleDef :=
  { ModuleDef.defaultM with
    name := "m", default_module_name := "m",
    class_ := [(1, ClassDef.fromClassInfo exClassInfo)] }

/-- Concrete builder hosting one class. -/
def exHostBuilder : StubInfoBuilder :=
  { modules := [("m", exHostModule)], default_module_name := "m", python_root := "" }

/-- Concrete methods block targeting identity key 1, with one attribute
and one abstract method. -/
def exAbstractBlock : PyMethodsInfo :=
  { struct_id := 1,
    attrs := [{ name := "a", type := TypeInfo.builtin "int", doc := "",
                default := none, deprecated := none, item := false }],
    getters := [],
    setters := [],
    methods := [{ name := "work", parameters := [], ret := TypeInfo.builtin "int",
                  doc := "", type := MethodType.Instance, is_async := false,
                  deprecated := none, type_ignored := none, is_abstract := true }] }

theorem C1_unmatched_block_aborts_witness :
    (∃ p ∈ exHostBuilder.modules,
        lookupS exAbstractBlock.struct_id p.2.class_ ≠ none
          ∨ lookupS exAbstractBlock.struct_id p.2.enum_ ≠ none)
    ∧ (∃ b' : StubInfoBuilder, add_methods exHostBuilder exAbstractBlock = some b') := by
  refine ⟨by decide, (C1_unmatched_block_aborts exHostBuilder exAbstractBlock).2.1 (by decide)⟩

theorem applyGetter_abstract_mono {e : ClassDef} (g : AccessorInfo)
    (h : e.is_abstract = true) : (applyGetter e g).is_abstract = true := by
  unfold applyGetter ClassDef.mark_abstract
  by_cases hg : g.is_abstract <;> simp [hg, h]

theorem applySetter_abstract_mono {e : ClassDef} (s : AccessorInfo)
    (h : e.is_abstract = true) : (applySetter e s).is_abstract = true := by
  unfold applySetter ClassDef.mark_abstract
  by_cases hs : s.is_abstract <;> simp [hs, h]

theorem applyMethod_abstract_mono {e : ClassDef} (m : MethodInfo)
    (h : e.is_abstract = true) : (applyMethod e m).is_abstract = true := by
  unfold applyMethod ClassDef.mark_abstract
  by_cases hm : (MethodDef.fromInfo m).is_abstract <;> simp [hm, h]

theorem foldl_applyGetter_abstract_mono (l : List AccessorInfo) :
    ∀ e : ClassDef, e.is_abstract = true → (l.foldl applyGetter e).is_abstract = true := by
  induction l with
  | nil => intro e h; exact h
  | cons hd tl ih =>
    intro e h
    exact ih (applyGetter e hd) (applyGetter_abstract_mono hd h)

theorem foldl_applySetter_abstract_mono (l : List AccessorInfo) :
    ∀ e : ClassDef, e.is_abstract = true → (l.foldl applySetter e).is_abstract = true := by
  induction l with
  | nil => intro e h; exact h
  | cons hd tl ih =>
    intro e h
    exact ih (applySetter e hd) (applySetter_abstract_mono hd h)

theorem foldl_applyMethod_abstract_mono (l : List MethodInfo) :
    ∀ e : ClassDef, e.is_abstract = true → (l.foldl applyMethod e).is_abstract = true := by
  induction l with
  | nil => intro e h; exact h
  | cons hd tl ih =>
    intro e h
    exact ih (applyMethod e hd) (applyMethod_abstract_mono hd h)

theorem foldl_applyGetter_abstract_of (l : List AccessorInfo)
    (h : ∃ g ∈ l, g.is_abstract = true) :
    ∀ e : ClassDef, (l.foldl applyGetter e).is_abstract = true := by
  induction l with
  | nil => simp at h
  | cons hd tl ih =>
    intro e
    rcases h with ⟨g, hg, hab⟩
    rcases List.mem_cons.mp hg with rfl | hm
    · rw [List.foldl_cons]
      refine foldl_applyGetter_abstract_mono tl (applyGetter e g) ?_
      unfold applyGetter ClassDef.mark_abstract
      simp [hab]
    · exact ih ⟨g, hm, hab⟩ (applyGetter e hd)

theorem foldl_applySetter_abstract_of (l : List AccessorInfo)
    (h : ∃ s ∈ l, s.is_abstract = true) :
    ∀ e : ClassDef, (l.foldl applySetter e).is_abstract = true := by
  induction l with
  | nil => simp at h
  | cons hd tl ih =>
    intro e
    rcases h with ⟨s, hs, hab⟩
    rcases List.mem_cons.mp hs with rfl | hm
    · rw [List.foldl_cons]
      refine foldl_applySetter_abstract_mono tl (applySetter e s) ?_
      unfold applySetter ClassDef.mark_abstract
      simp [hab]
    · exact ih ⟨s, hm, hab⟩ (applySetter e hd)

theorem foldl_applyMethod_abstract_of (l : List MethodInfo)
    (h : ∃ m ∈ l, m.is_abstract = true) :
    ∀ e : ClassDef, (l.foldl applyMethod e).is_abstract = true := by
  induction l with
  | nil => simp at h
  | cons hd tl ih =>
    intro e
    rcases h with ⟨m, hm, hab⟩
    rcases List.mem_cons.mp hm with rfl | hmem
    · rw [List.foldl_cons]
      refine foldl_applyMethod_abstract_mono tl (applyMethod e m) ?_
      unfold applyMethod ClassDef.mark_abstract MethodDef.fromInfo
      simp [hab]
    · exact ih ⟨m, hmem, hab⟩ (applyMethod e hd)

/-- C4 (amended): when the matched entity is a class, any abstract
getter, setter or method in the merged block marks the whole class
abstract, even if no other member is abstract; a block merged into an
enum leaves the enum's abstract flag untouched. -/
theorem C4_abstract_member_marks_class (info : PyMethodsInfo) :
    (∀ e : ClassDef,
      ((∃ g ∈ info.getters, g.is_abstract = true)
        ∨ (∃ s ∈ info.setters, s.is_abstract = true)
        ∨ (∃ m ∈ info.methods, m.is_abstract = true)) →
      (mergeIntoClass info e).is_abstract = true)
    ∧ (∀ e : EnumDef, (mergeIntoEnum info e).is_abstract = e.is_abstract) := by
  constructor
  · intro e h
    unfold mergeIntoClass
    rcases h with hg | hs | hm
    · exact foldl_applyMethod_abstract_mono _ _
        (foldl_applySetter_abstract_mono _ _ (foldl_applyGetter_abstract_of _ hg _))
    · exact foldl_applyMethod_abstract_mono _ _ (foldl_applySetter_abstract_of _ hs _)
    · exact foldl_applyMethod_abstract_of _ hm _
  · intro e
    rfl

/-- Concrete enum entry and enum-hosting builder used by the C4
counterexample. -/
def exEnumEntry : EnumDef :=
  { name := "E", doc := "", attrs := [], getters := [], setters := [],
    methods := [], is_abstract := false }

/-- Concrete module hosting the enum under identity key 1. -/
def exEnumHostModule : ModuleDef :=
  { ModuleDef.defaultM with
    name := "m", default_module_name := "m",
    enum_ := [(1, exEnumEntry)] }

/-- Concrete builder hosting one enum. -/
def exEnumHostBuilder : StubInfoBuilder :=
  { modules := [("m", exEnumHostModule)], default_module_name := "m",
    python_root := "" }

/-- C4 counterexample: a methods block with an abstract method merged
into a matched enum does NOT mark the enum abstract, contradicting the
claim's "class or enum" scope. -/
theorem C4_counterexample :
    (∃ m ∈ exAbstractBlock.methods, m.is_abstract = true)
    ∧ (mergeIntoEnum exAbstractBlock exEnumEntry).is_abstract = false
    ∧ (((add_methods exEnumHostBuilder exAbstractBlock).bind
          (fun b => lookupS "m" b.modules)).bind
        (fun md => lookupS 1 md.enum_)).map EnumDef.is_abstract = some false := by
  refine ⟨by decide, rfl, by decide⟩

theorem C4_abstract_member_marks_class_witness :
    ((∃ g ∈ exAbstractBlock.getters, g.is_abstract = true)
      ∨ (∃ s ∈ exAbstractBlock.setters, s.is_abstract = true)
      ∨ (∃ m ∈ exAbstractBlock.methods, m.is_abstract = true))
    ∧ (mergeIntoClass exAbstractBlock (ClassDef.fromClassInfo exClassInfo)).is_abstract
        = true := by
  refine ⟨by decide, ?_⟩
  exact (C4_abstract_member_marks_class exAbstractBlock).1
    (ClassDef.fromClassInfo exClassInfo) (by decide)

/-! ## Split/join facts used for the submodule derivation -/

theorem splitBy_ne_nil (p : Char → Bool) (cs : List Char) : splitBy p cs ≠ [] := by
  cases cs with
  | nil => simp [splitBy]
  | cons c rest =>
    unfold splitBy
    by_cases hc : p c
    · simp [hc]
    · simp only [hc, Bool.false_eq_true, if_false]
      cases h : splitBy p rest with
      | nil => simp
      | cons t ts => simp

theorem joinBy_splitBy (sep : Char) (cs : List Char) :
    joinBy sep (splitBy (· == sep) cs) = cs := by
  induction cs with
  | nil => rfl
  | cons c rest ih =>
    unfold splitBy
    by_cases hc : c = sep
    · subst hc
      simp only [beq_self_eq_true, if_true]
      cases h : splitBy (· == c) rest with
      | nil => exact absurd h (splitBy_ne_nil _ rest)
      | cons t ts =>
        rw [h] at ih
        show joinBy c ([] :: t :: ts) = c :: rest
        unfold joinBy
        simpa using ih
    · have hb : (c == sep) = false := by
        cases hv : c == sep with
        | false => rfl
        | true => exact absurd (by simpa using hv) hc
      simp only [hb, Bool.false_eq_true, if_false]
      cases h : splitBy (· == sep) rest with
      | nil => exact absurd h (splitBy_ne_nil _ rest)
      | cons t ts =>
        rw [h] at ih
        cases ts with
        | nil =>
          show joinBy sep [c :: t] = c :: rest
          unfold joinBy
          simp only [joinBy] at ih
          simp [ih]
        | cons u us =>
          show joinBy sep ((c :: t) :: u :: us) = c :: rest
          unfold joinBy
          simp only [joinBy] at ih
          simp [List.cons_append, ih]

theorem joinBy_append_last (sep : Char) :
    ∀ (l : List (List Char)) (x : List Char), l ≠ [] →
      joinBy sep (l ++ [x]) = joinBy sep l ++ sep :: x := by
  intro l
  induction l with
  | nil => intro x h; exact absurd rfl h
  | cons a tl ih =>
    intro x _
    cases tl with
    | nil => simp [joinBy]
    | cons b tl2 =>
      have h2 := ih x (by simp)
      have e1 : joinBy sep ((a :: b :: tl2) ++ [x])
          = a ++ sep :: joinBy sep ((b :: tl2) ++ [x]) := rfl
      have e2 : joinBy sep (a :: b :: tl2) = a ++ sep :: joinBy sep (b :: tl2) := rfl
      rw [e1, h2, e2]
      simp

theorem joinBy_dropLast_length (sep : Char) (l : List (List Char))
    (h : 2 ≤ l.length) :
    (joinBy sep l.dropLast).length < (joinBy sep l).length := by
  have hne : l ≠ [] := by
    intro he
    subst he
    simp at h
  have hdec := List.dropLast_append_getLast hne
  have hdne : l.dropLast ≠ [] := by
    intro he
    have : l.dropLast.length = 0 := by rw [he]; rfl
    rw [List.length_dropLast] at this
    omega
  calc (joinBy sep l.dropLast).length
      < (joinBy sep l.dropLast).length + (sep :: l.getLast hne).length := by
        simp
    _ = (joinBy sep l.dropLast ++ sep :: l.getLast hne).length := by
        rw [List.length_append]
    _ = (joinBy sep (l.dropLast ++ [l.getLast hne])).length := by
        rw [joinBy_append_last sep l.dropLast (l.getLast hne) hdne]
    _ = (joinBy sep l).length := by rw [hdec]

theorem joinDots_splitDots (s : String) : joinDots (splitDots s) = s := by
  unfold joinDots splitDots
  rw [List.map_map]
  have hmap : ((splitBy (· == '.') s.toList).map ((fun st => st.data) ∘ fun l => String.mk l))
      = splitBy (· == '.') s.toList := by
    apply List.map_id''
    intro x
    rfl
  rw [hmap, joinBy_splitBy]
  cases s
  rfl

theorem parentName_ne_self (s : String) (h : 2 ≤ (splitDots s).length) :
    joinDots (splitDots s).dropLast ≠ s := by
  intro he
  have hlen : 2 ≤ ((splitDots s).map String.data).length := by
    simpa using h
  have hlt := joinBy_dropLast_length '.' ((splitDots s).map String.data) hlen
  have hdata : (joinDots (splitDots s).dropLast).data
      = joinBy '.' (((splitDots s).map String.data).dropLast) := by
    unfold joinDots
    rw [List.map_dropLast]
  have hfull : (joinDots (splitDots s)).data
      = joinBy '.' ((splitDots s).map String.data) := by
    unfold joinDots
    rfl
  have heq1 : (joinDots (splitDots s).dropLast).data = s.data := by rw [he]
  have heq2 : (joinDots (splitDots s)).data = s.data := by rw [joinDots_splitDots]
  rw [hdata] at heq1
  rw [hfull] at heq2
  rw [heq1, heq2] at hlt
  exact absurd hlt (lt_irrefl _)

/-! ## C8: merge of a class shape with a methods block -/

theorem applyGetter_gs (e : ClassDef) (g : AccessorInfo) :
    (applyGetter e g).getter_setters
      = insertSorted g.name
          (some (accessorToMember g),
            ((lookupS g.name e.getter_setters).getD (none, none)).2)
          e.getter_setters := by
  unfold applyGetter ClassDef.mark_abstract
  by_cases h : g.is_abstract <;> simp [h]

theorem applySetter_gs (e : ClassDef) (s : AccessorInfo) :
    (applySetter e s).getter_setters
      = insertSorted s.name
          (((lookupS s.name e.getter_setters).getD (none, none)).1,
            some (accessorToMember s))
          e.getter_setters := by
  unfold applySetter ClassDef.mark_abstract
  by_cases h : s.is_abstract <;> simp [h]

theorem applyMethod_gs (e : ClassDef) (m : MethodInfo) :
    (applyMethod e m).getter_setters = e.getter_setters := by
  unfold applyMethod ClassDef.mark_abstract
  by_cases h : (MethodDef.fromInfo m).is_abstract <;> simp [h]

theorem applyGetter_methods (e : ClassDef) (g : AccessorInfo) :
    (applyGetter e g).methods = e.methods := by
  unfold applyGetter ClassDef.mark_abstract
  by_cases h : g.is_abstract <;> simp [h]

theorem applySetter_methods (e : ClassDef) (s : AccessorInfo) :
    (applySetter e s).methods = e.methods := by
  unfold applySetter ClassDef.mark_abstract
  by_cases h : s.is_abstract <;> simp [h]

theorem applyMethod_methods (e : ClassDef) (m : MethodInfo) :
    (applyMethod e m).methods
      = insertSorted m.name
          (((lookupS m.name e.methods).getD []) ++ [MethodDef.fromInfo m])
          e.methods := by
  unfold applyMethod ClassDef.mark_abstract MethodDef.fromInfo
  by_cases hm : m.is_abstract <;> simp [hm]

theorem foldl_applyGetter_methods (l : List AccessorInfo) :
    ∀ e : ClassDef, (l.foldl applyGetter e).methods = e.methods := by
  induction l with
  | nil => intro e; rfl
  | cons hd tl ih =>
    intro e
    rw [List.foldl_cons, ih (applyGetter e hd), applyGetter_methods]

theorem foldl_applySetter_methods (l : List AccessorInfo) :
    ∀ e : ClassDef, (l.foldl applySetter e).methods = e.methods := by
  induction l with
  | nil => intro e; rfl
  | cons hd tl ih =>
    intro e
    rw [List.foldl_cons, ih (applySetter e hd), applySetter_methods]

theorem foldl_applyMethod_gs (l : List MethodInfo) :
    ∀ e : ClassDef, (l.foldl applyMethod e).getter_setters = e.getter_setters := by
  induction l with
  | nil => intro e; rfl
  | cons hd tl ih =>
    intro e
    rw [List.foldl_cons, ih (applyMethod e hd), applyMethod_gs]

/-- The last accessor of a given name in a list (the survivor of the
single-slot per-name writes in the getter/setter loops). -/
def lastNamed (n : String) : List AccessorInfo → Option AccessorInfo
  | [] => none
  | g :: rest =>
    match lastNamed n rest with
    | some r => some r
    | none => if g.name == n then some g else none

theorem foldl_applyMethod_methods_lookup (l : List MethodInfo) :
    ∀ (e : ClassDef) (n : String),
      (lookupS n (l.foldl applyMethod e).methods).getD []
        = ((lookupS n e.methods).getD [])
            ++ (l.filter (fun m => m.name == n)).map MethodDef.fromInfo := by
  induction l with
  | nil =>
    intro e n
    simp
  | cons hd tl ih =>
    intro e n
    rw [List.foldl_cons, ih (applyMethod e hd) n]
    by_cases hn : hd.name = n
    · subst hn
      have hb : (hd.name == hd.name) = true := by simp
      rw [List.filter_cons_of_pos (by simp)]
      have : (lookupS hd.name (applyMethod e hd).methods).getD []
          = ((lookupS hd.name e.methods).getD []) ++ [MethodDef.fromInfo hd] := by
        rw [applyMethod_methods, lookupS_insertSorted_self]
        rfl
      rw [this]
      simp
    · rw [List.filter_cons_of_neg (by simp [hn])]
      have : lookupS n (applyMethod e hd).methods = lookupS n e.methods := by
        rw [applyMethod_methods, lookupS_insertSorted_ne (fun he => hn he.symm)]
      rw [this]

theorem foldl_applyGetter_gs_lookup (l : List AccessorInfo) :
    ∀ (e : ClassDef) (n : String),
      lookupS n (l.foldl applyGetter e).getter_setters
        = match lastNamed n l with
          | none => lookupS n e.getter_setters
          | some g => some (some (accessorToMember g),
              ((lookupS n e.getter_setters).getD (none, none)).2) := by
  induction l with
  | nil =>
    intro e n
    rfl
  | cons hd tl ih =>
    intro e n
    rw [List.foldl_cons, ih (applyGetter e hd) n]
    by_cases hn : hd.name = n
    · subst hn
      have h1 : lookupS hd.name (applyGetter e hd).getter_setters
          = some (some (accessorToMember hd),
              ((lookupS hd.name e.getter_setters).getD (none, none)).2) := by
        rw [applyGetter_gs, lookupS_insertSorted_self]
      cases hl : lastNamed hd.name tl with
      | none =>
        simp only [lastNamed, hl, h1]
        simp
      | some g =>
        simp only [lastNamed, hl, h1]
        simp
    · have h1 : lookupS n (applyGetter e hd).getter_setters
          = lookupS n e.getter_setters := by
        rw [applyGetter_gs, lookupS_insertSorted_ne (fun he => hn he.symm)]
      cases hl : lastNamed n tl with
      | none =>
        simp only [lastNamed, hl, h1]
        simp [hn]
      | some g =>
        simp only [lastNamed, hl, h1]

theorem foldl_applySetter_gs_lookup (l : List AccessorInfo) :
    ∀ (e : ClassDef) (n : String),
      lookupS n (l.foldl applySetter e).getter_setters
        = match lastNamed n l with
          | none => lookupS n e.getter_setters
          | some s => some (((lookupS n e.getter_setters).getD (none, none)).1,
              some (accessorToMember s)) := by
  induction l with
  | nil =>
    intro e n
    rfl
  | cons hd tl ih =>
    intro e n
    rw [List.foldl_cons, ih (applySetter e hd) n]
    by_cases hn : hd.name = n
    · subst hn
      have h1 : lookupS hd.name (applySetter e hd).getter_setters
          = some (((lookupS hd.name e.getter_setters).getD (none, none)).1,
              some (accessorToMember hd)) := by
        rw [applySetter_gs, lookupS_insertSorted_self]
      cases hl : lastNamed hd.name tl with
      | none =>
        simp only [lastNamed, hl, h1]
        simp
      | some s =>
        simp only [lastNamed, hl, h1]
        simp
    · have h1 : lookupS n (applySetter e hd).getter_setters
          = lookupS n e.getter_setters := by
        rw [applySetter_gs, lookupS_insertSorted_ne (fun he => hn he.symm)]
      cases hl : lastNamed n tl with
      | none =>
        simp only [lastNamed, hl, h1]
        simp [hn]
      | some s =>
        simp only [lastNamed, hl, h1]

theorem mergeIntoClass_methods_lookup (info : PyMethodsInfo) (e : ClassDef)
    (n : String) :
    (lookupS n (mergeIntoClass info e).methods).getD []
      = ((lookupS n e.methods).getD [])
          ++ (info.methods.filter (fun m => m.name == n)).map MethodDef.fromInfo := by
  unfold mergeIntoClass
  rw [foldl_applyMethod_methods_lookup, foldl_applySetter_methods,
    foldl_applyGetter_methods]

theorem mergeIntoClass_gs_lookup (info : PyMethodsInfo) (e : ClassDef)
    (n : String) :
    lookupS n (mergeIntoClass info e).getter_setters
      = match lastNamed n info.getters, lastNamed n info.setters with
        | none, none => lookupS n e.getter_setters
        | some g, none => some (some (accessorToMember g),
            ((lookupS n e.getter_setters).getD (none, none)).2)
        | none, some s => some (((lookupS n e.getter_setters).getD (none, none)).1,
            some (accessorToMember s))
        | some g, some s => some (some (accessorToMember g),
            some (accessorToMember s)) := by
  unfold mergeIntoClass
  rw [foldl_applyMethod_gs, foldl_applySetter_gs_lookup, foldl_applyGetter_gs_lookup]
  cases hg : lastNamed n info.getters with
  | none =>
    cases hs : lastNamed n info.setters with
    | none => rfl
    | some s => rfl
  | some g =>
    cases hs : lastNamed n info.setters with
    | none => rfl
    | some s => rfl

theorem register_submodules_singleton (nm : String) (m : ModuleDef) :
    register_submodules [(nm, m)] = [(nm, m)] := by
  unfold register_submodules submoduleMap
  simp only [List.map_cons, List.map_nil, List.foldl_cons, List.foldl_nil]
  unfold submoduleMapStep
  by_cases hlen : (splitDots nm).length ≤ 1
  · simp [hlen]
  · simp only [hlen, if_false]
    have hne : joinDots (splitDots nm).dropLast ≠ nm :=
      parentName_ne_self nm (by omega)
    show List.foldl applyChildren [(nm, m)]
        (insertSorted (joinDots (splitDots nm).dropLast) _ []) = [(nm, m)]
    rw [show ∀ v : List String,
        insertSorted (joinDots (splitDots nm).dropLast) v ([] : List (String × List String))
          = [(joinDots (splitDots nm).dropLast, v)] from fun v => rfl]
    rw [List.foldl_cons, List.foldl_nil]
    unfold applyChildren
    simp [lookupS, eqB_of_ne hne]

/-- C8: one class-shape descriptor plus one methods-block descriptor
sharing an identity key build to exactly one module holding exactly one
class, whose attribute, getter/setter and method collections are the
union of both sources; same-name method descriptors stay distinct
entries in registration order (the per-name list is the filtered block
list, never deduplicated). -/
theorem C8_merge_union (c : PyClassInfo) (info : PyMethodsInfo) (dmn root : String)
    (hid : info.struct_id = c.struct_id) :
    (build (newBuilder dmn root) [Descriptor.classInfo c, Descriptor.methodsInfo info]
      = some
          { modules :=
              [(c.module.getD dmn,
                { name := c.module.getD dmn, default_module_name := dmn, doc := "",
                  class_ := [(c.struct_id, mergeIntoClass info (ClassDef.fromClassInfo c))],
                  enum_ := [], function := [], variables_ := [], submodules := [] })],
            python_root := root })
    ∧ (∀ n : String,
        (lookupS n (mergeIntoClass info (ClassDef.fromClassInfo c)).methods).getD []
          = (info.methods.filter (fun m => m.name == n)).map MethodDef.fromInfo)
    ∧ (mergeIntoClass info (ClassDef.fromClassInfo c)).attrs = info.attrs.map attrToMember
    ∧ (∀ n : String,
        lookupS n (mergeIntoClass info (ClassDef.fromClassInfo c)).getter_setters
          = match lastNamed n info.getters, lastNamed n info.setters with
            | none, none => none
            | some g, none => some (some (accessorToMember g), none)
            | none, some s => some (none, some (accessorToMember s))
            | some g, some s =>
              some (some (accessorToMember g), some (accessorToMember s))) := by
  refine ⟨?_, ?_, ?_, ?_⟩
  · unfold build
    simp only [classInfos, complexEnumInfos, enumInfos, functionInfos, variableInfos,
      moduleDocInfos, methodsInfos, List.filterMap_cons, List.filterMap_nil,
      List.foldl_cons, List.foldl_nil]
    have e1 : add_class (newBuilder dmn root) c
        = { modules :=
              [(c.module.getD dmn,
                { name := c.module.getD dmn, default_module_name := dmn, doc := "",
                  class_ := [(c.struct_id, ClassDef.fromClassInfo c)], enum_ := [],
                  function := [], variables_ := [], submodules := [] })],
            default_module_name := dmn,
            python_root := root } := rfl
    rw [e1]
    have e2 : add_methods
        ({ modules :=
              [(c.module.getD dmn,
                { name := c.module.getD dmn, default_module_name := dmn, doc := "",
                  class_ := [(c.struct_id, ClassDef.fromClassInfo c)], enum_ := [],
                  function := [], variables_ := [], submodules := [] })],
           default_module_name := dmn,
           python_root := root } : StubInfoBuilder) info
        = some
            { modules :=
                [(c.module.getD dmn,
                  { name := c.module.getD dmn, default_module_name := dmn, doc := "",
                    class_ :=
                      [(c.struct_id, mergeIntoClass info (ClassDef.fromClassInfo c))],
                    enum_ := [], function := [], variables_ := [], submodules := [] })],
              default_module_name := dmn,
              python_root := root } := by
      unfold add_methods addMethodsIn
      rw [hid]
      simp [lookupS, eqB_refl, insertSorted, KeyCmp.ltB_irrefl]
    simp only [Option.bind]
    rw [e2]
    simp [register_submodules_singleton]
  · intro n
    rw [mergeIntoClass_methods_lookup]
    simp [ClassDef.fromClassInfo, lookupS]
  · rw [mergeIntoClass_attrs]
    simp [ClassDef.fromClassInfo]
  · intro n
    rw [mergeIntoClass_gs_lookup]
    cases hg : lastNamed n info.getters with
    | none =>
      cases hs : lastNamed n info.setters with
      | none => simp [ClassDef.fromClassInfo, lookupS]
      | some s => simp [ClassDef.fromClassInfo, lookupS]
    | some g =>
      cases hs : lastNamed n info.setters with
      | none => simp [ClassDef.fromClassInfo, lookupS]
      | some s => simp [ClassDef.fromClassInfo, lookupS]

/-- Concrete methods block with two same-name method descriptors. -/
def exDupBlock : PyMethodsInfo :=
  { struct_id := 1, attrs := [], getters := [], setters := [],
    methods :=
      [{ name := "work", parameters := [], ret := TypeInfo.builtin "int",
         doc := "first", type := MethodType.Instance, is_async := false,
         deprecated := none, type_ignored := none, is_abstract := false },
       { name := "work", parameters := [], ret := TypeInfo.builtin "str",
         doc := "second", type := MethodType.Instance, is_async := false,
         deprecated := none, type_ignored := none, is_abstract := false }] }

theorem C8_merge_union_witness :
    exDupBlock.struct_id = exClassInfo.struct_id
    ∧ (∀ n : String,
        (lookupS n (mergeIntoClass exDupBlock (ClassDef.fromClassInfo exClassInfo)).methods).getD []
          = (exDupBlock.methods.filter (fun m => m.name == n)).map MethodDef.fromInfo)
    ∧ (lookupS "work"
        (mergeIntoClass exDupBlock (ClassDef.fromClassInfo exClassInfo)).methods).getD []
        = exDupBlock.methods.map MethodDef.fromInfo := by
  have h := (C8_merge_union exClassInfo exDupBlock "m" "" rfl).2.1
  refine ⟨rfl, h, ?_⟩
  rw [h "work"]
  rfl

/-! ## C7: submodule derivation -/

/-- Presence of `c` in the submodule set of the module registered under
`p`. -/
def subIn (p c : String) (ms : List (String × ModuleDef)) : Prop :=
  ∃ m, lookupS p ms = some m ∧ c ∈ m.submodules

theorem subIn_applyChildren_mono {p c : String} {ms : List (String × ModuleDef)}
    (pc : String × List String) (h : subIn p c ms) :
    subIn p c (applyChildren ms pc) := by
  obtain ⟨m, hm, hc⟩ := h
  unfold applyChildren
  cases hl : lookupS pc.1 ms with
  | none => exact ⟨m, hm, hc⟩
  | some m0 =>
    by_cases hp : p = pc.1
    · subst hp
      rw [hm] at hl
      obtain rfl : m = m0 := by injection hl
      exact ⟨_, lookupS_insertSorted_self _ _ _,
        mem_extendSetS_left _ _ _ hc⟩
    · exact ⟨m, by rw [lookupS_insertSorted_ne hp]; exact hm, hc⟩

theorem subIn_applyChildren_intro {ms : List (String × ModuleDef)}
    {pc : String × List String} {m : ModuleDef} {c : String}
    (hl : lookupS pc.1 ms = some m) (hc : c ∈ pc.2) :
    subIn pc.1 c (applyChildren ms pc) := by
  unfold applyChildren
  rw [hl]
  exact ⟨_, lookupS_insertSorted_self _ _ _, mem_extendSetS_right _ _ _ hc⟩

theorem lookupS_applyChildren_ne_none {p : String} {ms : List (String × ModuleDef)}
    (pc : String × List String) (h : lookupS p ms ≠ none) :
    lookupS p (applyChildren ms pc) ≠ none := by
  unfold applyChildren
  cases hl : lookupS pc.1 ms with
  | none => exact h
  | some m0 =>
    by_cases hp : p = pc.1
    · subst hp
      rw [lookupS_insertSorted_self]
      simp
    · rw [lookupS_insertSorted_ne hp]
      exact h

theorem lookupS_applyChildren_none {p : String} {ms : List (String × ModuleDef)}
    (pc : String × List String) (h : lookupS p ms = none) :
    lookupS p (applyChildren ms pc) = none := by
  unfold applyChildren
  cases hl : lookupS pc.1 ms with
  | none => exact h
  | some m0 =>
    by_cases hp : p = pc.1
    · subst hp
      rw [h] at hl
      exact absurd hl (by simp)
    · rw [lookupS_insertSorted_ne hp]
      exact h

theorem subIn_foldl_mono {p c : String} (mapl : List (String × List String)) :
    ∀ ms, subIn p c ms → subIn p c (mapl.foldl applyChildren ms) := by
  induction mapl with
  | nil => intro ms h; exact h
  | cons hd tl ih =>
    intro ms h
    exact ih (applyChildren ms hd) (subIn_applyChildren_mono hd h)

theorem foldl_applyChildren_subIn_of_mem {p c : String} {ch : List String}
    (mapl : List (String × List String)) (hmem : (p, ch) ∈ mapl) (hc : c ∈ ch) :
    ∀ ms, lookupS p ms ≠ none → subIn p c (mapl.foldl applyChildren ms) := by
  induction mapl with
  | nil => simp at hmem
  | cons hd tl ih =>
    intro ms hne
    rcases List.mem_cons.mp hmem with heq | hm
    · subst heq
      rw [List.foldl_cons]
      have hsome : ∃ m, lookupS p ms = some m := by
        cases hl : lookupS p ms with
        | none => exact absurd hl hne
        | some m => exact ⟨m, rfl⟩
      obtain ⟨m, hm0⟩ := hsome
      exact subIn_foldl_mono tl _ (@subIn_applyChildren_intro ms (p, ch) m c hm0 hc)
    · rw [List.foldl_cons]
      exact ih hm (applyChildren ms hd) (lookupS_applyChildren_ne_none hd hne)

theorem lookupS_foldl_applyChildren_none {p : String}
    (mapl : List (String × List String)) :
    ∀ ms, lookupS p ms = none → lookupS p (mapl.foldl applyChildren ms) = none := by
  induction mapl with
  | nil => intro ms h; exact h
  | cons hd tl ih =>
    intro ms h
    exact ih (applyChildren ms hd) (lookupS_applyChildren_none hd h)

theorem submoduleMapStep_mem_preserve {p c : String}
    {acc : List (String × List String)} (nm : String)
    (h : ∃ ch, lookupS p acc = some ch ∧ c ∈ ch) :
    ∃ ch, lookupS p (submoduleMapStep acc nm) = some ch ∧ c ∈ ch := by
  obtain ⟨ch, hl, hc⟩ := h
  unfold submoduleMapStep
  by_cases hlen : (splitDots nm).length ≤ 1
  · simp only [hlen, if_true]
    exact ⟨ch, hl, hc⟩
  · simp only [hlen, if_false]
    by_cases hp : p = joinDots (splitDots nm).dropLast
    · subst hp
      rw [hl]
      refine ⟨_, lookupS_insertSorted_self _ _ _, ?_⟩
      exact (mem_insertSetS _ _ _).mpr (Or.inr hc)
    · exact ⟨ch, by rw [lookupS_insertSorted_ne hp]; exact hl, hc⟩

theorem submoduleMapStep_mem_intro {acc : List (String × List String)}
    (nm : String) (hlen : ¬(splitDots nm).length ≤ 1) :
    ∃ ch, lookupS (joinDots (splitDots nm).dropLast) (submoduleMapStep acc nm) = some ch
      ∧ (splitDots nm).getLastD "" ∈ ch := by
  unfold submoduleMapStep
  simp only [hlen, if_false]
  refine ⟨_, lookupS_insertSorted_self _ _ _, ?_⟩
  exact (mem_insertSetS _ _ _).mpr (Or.inl rfl)

theorem foldl_submoduleMapStep_mem_preserve {p c : String} (keys : List String) :
    ∀ acc, (∃ ch, lookupS p acc = some ch ∧ c ∈ ch) →
      ∃ ch, lookupS p (keys.foldl submoduleMapStep acc) = some ch ∧ c ∈ ch := by
  induction keys with
  | nil => intro acc h; exact h
  | cons hd tl ih =>
    intro acc h
    rw [List.foldl_cons]
    exact ih _ (submoduleMapStep_mem_preserve hd h)

theorem foldl_submoduleMapStep_mem (keys : List String) (nm : String)
    (hlen : ¬(splitDots nm).length ≤ 1) :
    ∀ acc, nm ∈ keys →
      ∃ ch,
        lookupS (joinDots (splitDots nm).dropLast) (keys.foldl submoduleMapStep acc)
            = some ch
          ∧ (splitDots nm).getLastD "" ∈ ch := by
  induction keys with
  | nil =>
    intro acc h
    simp at h
  | cons hd tl ih =>
    intro acc hmem
    rcases List.mem_cons.mp hmem with heq | hm
    · subst heq
      rw [List.foldl_cons]
      exact foldl_submoduleMapStep_mem_preserve tl _ (submoduleMapStep_mem_intro nm hlen)
    · rw [List.foldl_cons]
      exact ih _ hm

theorem lookupS_none_iff_not_mem_keys {K : Type} [KeyCmp K] {V : Type}
    (k : K) (l : List (K × V)) :
    lookupS k l = none ↔ k ∉ l.map Prod.fst := by
  induction l with
  | nil => simp [lookupS]
  | cons hd tl ih =>
    obtain ⟨k', v'⟩ := hd
    by_cases hk : k = k'
    · subst hk
      simp [lookupS, eqB_refl]
    · simp [lookupS, eqB_of_ne hk, ih, hk]

theorem applyChildren_keys {ms : List (String × ModuleDef)} (hs : sortedKeys ms)
    (pc : String × List String) :
    (applyChildren ms pc).map Prod.fst = ms.map Prod.fst := by
  unfold applyChildren
  cases hl : lookupS pc.1 ms with
  | none => rfl
  | some m => exact insertSorted_keys_of_mem _ hs (by rw [hl]; simp)

theorem applyChildren_sorted {ms : List (String × ModuleDef)} (hs : sortedKeys ms)
    (pc : String × List String) :
    sortedKeys (applyChildren ms pc) := by
  unfold applyChildren
  cases hl : lookupS pc.1 ms with
  | none => exact hs
  | some m => exact sortedKeys_insertSorted _ _ hs

theorem foldl_applyChildren_keys (mapl : List (String × List String)) :
    ∀ ms : List (String × ModuleDef), sortedKeys ms →
      ((mapl.foldl applyChildren ms).map Prod.fst = ms.map Prod.fst
        ∧ sortedKeys (mapl.foldl applyChildren ms)) := by
  induction mapl with
  | nil => intro ms hs; exact ⟨rfl, hs⟩
  | cons hd tl ih =>
    intro ms hs
    rw [List.foldl_cons]
    obtain ⟨hk, hsort⟩ := ih (applyChildren ms hd) (applyChildren_sorted hs hd)
    exact ⟨by rw [hk, applyChildren_keys hs], hsort⟩

theorem register_submodules_keys {ms : List (String × ModuleDef)}
    (hs : sortedKeys ms) :
    (register_submodules ms).map Prod.fst = ms.map Prod.fst := by
  unfold register_submodules
  exact (foldl_applyChildren_keys _ ms hs).1

theorem register_submodules_sorted {ms : List (String × ModuleDef)}
    (hs : sortedKeys ms) :
    sortedKeys (register_submodules ms) := by
  unfold register_submodules
  exact (foldl_applyChildren_keys _ ms hs).2

theorem foldl_applyChildren_noop (mapl : List (String × List String)) :
    ∀ ms : List (String × ModuleDef), sortedKeys ms →
      (∀ pc ∈ mapl, ∀ c ∈ pc.2, lookupS pc.1 ms = none ∨ subIn pc.1 c ms) →
      mapl.foldl applyChildren ms = ms := by
  induction mapl with
  | nil => intro ms _ _; rfl
  | cons hd tl ih =>
    intro ms hs hcond
    rw [List.foldl_cons]
    have hstep : applyChildren ms hd = ms := by
      unfold applyChildren
      cases hl : lookupS hd.1 ms with
      | none => rfl
      | some m =>
        have hsub : ∀ c ∈ hd.2, c ∈ m.submodules := by
          intro c hc
          rcases hcond hd (by simp) c hc with hn | hsub
          · rw [hl] at hn
            exact absurd hn (by simp)
          · obtain ⟨m', hm', hc'⟩ := hsub
            rw [hl] at hm'
            obtain rfl : m = m' := by injection hm'
            exact hc'
        show insertSorted hd.1
            { m with submodules := extendSetS m.submodules hd.2 } ms = ms
        rw [extendSetS_eq_self _ _ hsub]
        exact insertSorted_eq_self_of_mem hs hl
    rw [hstep]
    exact ih ms hs (fun pc hpc c hc => hcond pc (by simp [hpc]) c hc)

theorem register_submodules_idem {ms : List (String × ModuleDef)}
    (hs : sortedKeys ms) :
    register_submodules (register_submodules ms) = register_submodules ms := by
  have hkeys := register_submodules_keys hs
  have hsort := register_submodules_sorted hs
  show List.foldl applyChildren (register_submodules ms)
      (submoduleMap ((register_submodules ms).map Prod.fst)) = register_submodules ms
  rw [hkeys]
  apply foldl_applyChildren_noop _ _ hsort
  intro pc hpc c hc
  cases hn : lookupS pc.1 ms with
  | none =>
    left
    rw [lookupS_none_iff_not_mem_keys] at hn ⊢
    rw [hkeys]
    exact hn
  | some m =>
    right
    unfold register_submodules
    exact foldl_applyChildren_subIn_of_mem _ hpc hc ms (by rw [hn]; simp)

/-! ## Module-update commutation (`get_module` discipline) -/

/-- A module mutation that leaves the two name fields set by
`get_module` untouched (every `add_*` mutation does). -/
def preservesNames (f : ModuleDef → ModuleDef) : Prop :=
  ∀ m, (f m).name = m.name ∧ (f m).default_module_name = m.default_module_name

theorem setModuleNames_eq_self {n dmn : String} {m : ModuleDef}
    (h1 : m.name = n) (h2 : m.default_module_name = dmn) :
    setModuleNames n dmn m = m := by
  cases m
  simp_all [setModuleNames]

theorem updAt_comm_ne {n1 n2 : String} (h : n1 ≠ n2) (dmn : String)
    (f1 f2 : ModuleDef → ModuleDef) (ms : List (String × ModuleDef)) :
    updAt dmn n1 f1 (updAt dmn n2 f2 ms) = updAt dmn n2 f2 (updAt dmn n1 f1 ms) := by
  unfold updAt
  rw [lookupS_insertSorted_ne h, lookupS_insertSorted_ne h.symm]
  exact insertSorted_comm h _ _ ms

theorem updAt_comm_same (n dmn : String) (f1 f2 : ModuleDef → ModuleDef)
    (ms : List (String × ModuleDef)) (hf1 : preservesNames f1)
    (hf2 : preservesNames f2) (hc : ∀ m, f1 (f2 m) = f2 (f1 m)) :
    updAt dmn n f1 (updAt dmn n f2 ms) = updAt dmn n f2 (updAt dmn n f1 ms) := by
  unfold updAt
  rw [lookupS_insertSorted_self, lookupS_insertSorted_self]
  simp only [Option.getD_some]
  have e2 : setModuleNames n dmn
        (f2 (setModuleNames n dmn ((lookupS n ms).getD ModuleDef.defaultM)))
      = f2 (setModuleNames n dmn ((lookupS n ms).getD ModuleDef.defaultM)) :=
    setModuleNames_eq_self ((hf2 _).1.trans rfl) ((hf2 _).2.trans rfl)
  have e1 : setModuleNames n dmn
        (f1 (setModuleNames n dmn ((lookupS n ms).getD ModuleDef.defaultM)))
      = f1 (setModuleNames n dmn ((lookupS n ms).getD ModuleDef.defaultM)) :=
    setModuleNames_eq_self ((hf1 _).1.trans rfl) ((hf1 _).2.trans rfl)
  rw [e2, e1, insertSorted_insertSorted_self, insertSorted_insertSorted_self, hc]

/-- Registration of a module through `get_module` with no further
mutation: the effect a descriptor's module resolution has on the module
tree. -/
def registerModule (b : StubInfoBuilder) (n? : Option String) : StubInfoBuilder :=
  updModule b n? id

theorem registerModule_comm (b : StubInfoBuilder) (x y : Option String) :
    registerModule (registerModule b x) y = registerModule (registerModule b y) x := by
  obtain ⟨ms, dmn, root⟩ := b
  show StubInfoBuilder.mk
      (updAt dmn (y.getD dmn) id (updAt dmn (x.getD dmn) id ms)) dmn root
    = StubInfoBuilder.mk
      (updAt dmn (x.getD dmn) id (updAt dmn (y.getD dmn) id ms)) dmn root
  congr 1
  by_cases h : x.getD dmn = y.getD dmn
  · rw [h]
  · exact updAt_comm_ne (fun he => h he.symm) dmn id id ms

theorem foldl_registerModule_perm (b : StubInfoBuilder)
    {l1 l2 : List (Option String)} (hp : l1.Perm l2) :
    l1.foldl registerModule b = l2.foldl registerModule b :=
  hp.foldl_eq' (fun x _ y _ z => registerModule_comm z x y) b

/-- C7: after the submodule-derivation step, every registered module
name with at least two dot-separated segments contributes its last
segment to the submodule set of the module registered under its parent
prefix; the derivation is idempotent on the (always key-sorted) module
map, and the derived result is independent of the order in which the
modules were registered. -/
theorem C7_submodule_derivation (dmn root : String) :
    (∀ (ms : List (String × ModuleDef)) (nm : String),
        nm ∈ ms.map Prod.fst → 2 ≤ (splitDots nm).length →
        ∀ pm : ModuleDef,
          lookupS (joinDots (splitDots nm).dropLast) (register_submodules ms) = some pm →
          (splitDots nm).getLastD "" ∈ pm.submodules)
    ∧ (∀ ms : List (String × ModuleDef), sortedKeys ms →
        register_submodules (register_submodules ms) = register_submodules ms)
    ∧ (∀ l1 l2 : List (Option String), l1.Perm l2 →
        register_submodules ((l1.foldl registerModule (newBuilder dmn root)).modules)
          = register_submodules ((l2.foldl registerModule (newBuilder dmn root)).modules)) := by
  refine ⟨?_, fun ms hs => register_submodules_idem hs, ?_⟩
  · intro ms nm hmem hlen pm hp
    have hlen' : ¬(splitDots nm).length ≤ 1 := by omega
    obtain ⟨ch, hch, hc⟩ := foldl_submoduleMapStep_mem (ms.map Prod.fst) nm hlen' [] hmem
    have hentry : (joinDots (splitDots nm).dropLast, ch) ∈ submoduleMap (ms.map Prod.fst) :=
      lookupS_mem hch
    cases hn : lookupS (joinDots (splitDots nm).dropLast) ms with
    | none =>
      have : lookupS (joinDots (splitDots nm).dropLast) (register_submodules ms) = none := by
        unfold register_submodules
        exact lookupS_foldl_applyChildren_none _ ms hn
      rw [this] at hp
      exact absurd hp (by simp)
    | some m0 =>
      have hsub : subIn (joinDots (splitDots nm).dropLast) ((splitDots nm).getLastD "")
          (register_submodules ms) := by
        unfold register_submodules
        exact foldl_applyChildren_subIn_of_mem _ hentry hc ms (by rw [hn]; simp)
      obtain ⟨m', hm', hc'⟩ := hsub
      rw [hp] at hm'
      obtain rfl : pm = m' := by injection hm'
      exact hc'
  · intro l1 l2 hp
    rw [foldl_registerModule_perm (newBuilder dmn root) hp]

/-- Modules map obtained by registering `pkg`, `pkg.sub`,
`pkg.sub.leaf` (spec §8's example). -/
def exPkgModules : List (String × ModuleDef) :=
  (([some "pkg", some "pkg.sub", some "pkg.sub.leaf"] : List (Option String)).foldl
    registerModule (newBuilder "pkg" "")).modules

theorem C7_submodule_derivation_witness :
    ("pkg.sub" ∈ exPkgModules.map Prod.fst)
    ∧ 2 ≤ (splitDots "pkg.sub").length
    ∧ joinDots (splitDots "pkg.sub").dropLast = "pkg"
    ∧ (splitDots "pkg.sub").getLastD "" = "sub"
    ∧ (∀ pm : ModuleDef,
        lookupS (joinDots (splitDots "pkg.sub").dropLast)
            (register_submodules exPkgModules) = some pm →
        (splitDots "pkg.sub").getLastD "" ∈ pm.submodules)
    ∧ sortedKeys exPkgModules
    ∧ register_submodules (register_submodules exPkgModules)
        = register_submodules exPkgModules
    ∧ ([some "pkg", some "pkg.sub", some "pkg.sub.leaf"] : List (Option String)).Perm
        [some "pkg.sub.leaf", some "pkg", some "pkg.sub"]
    ∧ register_submodules
          ((([some "pkg", some "pkg.sub", some "pkg.sub.leaf"] : List (Option String)).foldl
            registerModule (newBuilder "pkg" "")).modules)
        = register_submodules
          ((([some "pkg.sub.leaf", some "pkg", some "pkg.sub"] : List (Option String)).foldl
            registerModule (newBuilder "pkg" "")).modules) := by
  have h := C7_submodule_derivation "pkg" ""
  refine ⟨by decide, by decide, by decide, by decide,
    h.1 exPkgModules "pkg.sub" (by decide) (by decide),
    ?_, h.2.1 exPkgModules ?_, by decide,
    h.2.2 [some "pkg", some "pkg.sub", some "pkg.sub.leaf"]
      [some "pkg.sub.leaf", some "pkg", some "pkg.sub"] (by decide)⟩
  · show List.Pairwise _ exPkgModules
    decide
  · show List.Pairwise _ exPkgModules
    decide

/-! ## C5: order independence of `build` -/

/-- Boolean within-kind key compatibility of two descriptors. The build
passes run kind by kind in a fixed order, so only two descriptors of
the same kind can interact: they are compatible when they are equal or
target distinct slots of the per-module maps (identity key for classes,
complex enums, enums and methods blocks; effective module and name for
functions; module and name for variables; module for module docs). -/
def descCompatB (dmn : String) : Descriptor → Descriptor → Bool
  | Descriptor.classInfo a, Descriptor.classInfo b =>
      a == b || !(a.struct_id == b.struct_id)
  | Descriptor.complexEnumInfo a, Descriptor.complexEnumInfo b =>
      a == b || !(a.enum_id == b.enum_id)
  | Descriptor.enumInfo a, Descriptor.enumInfo b =>
      a == b || !(a.enum_id == b.enum_id)
  | Descriptor.functionInfo a, Descriptor.functionInfo b =>
      a == b || !(a.module.getD dmn == b.module.getD dmn && a.name == b.name)
  | Descriptor.variableInfo a, Descriptor.variableInfo b =>
      a == b || !(a.module == b.module && a.name == b.name)
  | Descriptor.moduleDocInfo a, Descriptor.moduleDocInfo b =>
      a == b || !(a.module == b.module)
  | Descriptor.methodsInfo a, Descriptor.methodsInfo b =>
      a == b || !(a.struct_id == b.struct_id)
  | _, _ => true

/-- Propositional form of descriptor compatibility. -/
abbrev DescCompat (dmn : String) (d1 d2 : Descriptor) : Prop :=
  descCompatB dmn d1 d2 = true

theorem descCompat_class_iff {dmn : String} {a b : PyClassInfo} :
    DescCompat dmn (Descriptor.classInfo a) (Descriptor.classInfo b)
      ↔ (a = b ∨ a.struct_id ≠ b.struct_id) := by
  unfold DescCompat descCompatB
  simp

theorem descCompat_cenum_iff {dmn : String} {a b : PyComplexEnumInfo} :
    DescCompat dmn (Descriptor.complexEnumInfo a) (Descriptor.complexEnumInfo b)
      ↔ (a = b ∨ a.enum_id ≠ b.enum_id) := by
  unfold DescCompat descCompatB
  simp

theorem descCompat_enum_iff {dmn : String} {a b : PyEnumInfo} :
    DescCompat dmn (Descriptor.enumInfo a) (Descriptor.enumInfo b)
      ↔ (a = b ∨ a.enum_id ≠ b.enum_id) := by
  unfold DescCompat descCompatB
  simp

theorem descCompat_fn_iff {dmn : String} {a b : PyFunctionInfo} :
    DescCompat dmn (Descriptor.functionInfo a) (Descriptor.functionInfo b)
      ↔ (a = b ∨ ¬(a.module.getD dmn = b.module.getD dmn ∧ a.name = b.name)) := by
  unfold DescCompat descCompatB
  simp
  tauto

theorem descCompat_var_iff {dmn : String} {a b : PyVariableInfo} :
    DescCompat dmn (Descriptor.variableInfo a) (Descriptor.variableInfo b)
      ↔ (a = b ∨ ¬(a.module = b.module ∧ a.name = b.name)) := by
  unfold DescCompat descCompatB
  simp
  tauto

theorem descCompat_doc_iff {dmn : String} {a b : ModuleDocInfo} :
    DescCompat dmn (Descriptor.moduleDocInfo a) (Descriptor.moduleDocInfo b)
      ↔ (a = b ∨ a.module ≠ b.module) := by
  unfold DescCompat descCompatB
  simp

theorem descCompat_methods_iff {dmn : String} {a b : PyMethodsInfo} :
    DescCompat dmn (Descriptor.methodsInfo a) (Descriptor.methodsInfo b)
      ↔ (a = b ∨ a.struct_id ≠ b.struct_id) := by
  unfold DescCompat descCompatB
  simp

/-- Fold invariance under permutation, given a state invariant preserved
by the step and a commutation law valid on invariant states. -/
theorem foldl_perm_of_comm {α β : Type _} (P : β → Prop) (f : β → α → β)
    (hpres : ∀ b a, P b → P (f b a)) :
    ∀ {l1 l2 : List α}, l1.Perm l2 →
      (∀ x ∈ l1, ∀ y ∈ l1, ∀ z, P z → f (f z x) y = f (f z y) x) →
      ∀ b, P b → l1.foldl f b = l2.foldl f b := by
  intro l1 l2 hp
  induction hp with
  | nil => intro _ b _; rfl
  | cons a h ih =>
    intro hcomm b hb
    simp only [List.foldl_cons]
    exact ih (fun x hx y hy => hcomm x (List.mem_cons_of_mem a hx) y (List.mem_cons_of_mem a hy))
      (f b a) (hpres b a hb)
  | swap a a' l =>
    intro hcomm b hb
    simp only [List.foldl_cons]
    rw [hcomm a' (by simp) a (by simp) b hb]
  | trans h1 h2 ih1 ih2 =>
    intro hcomm b hb
    rw [ih1 hcomm b hb]
    exact ih2 (fun x hx y hy => hcomm x (h1.mem_iff.mpr hx) y (h1.mem_iff.mpr hy)) b hb

/-- Every `add_*` step leaves the builder's default module name
untouched, hence so does the whole pass. -/
theorem foldl_dmn_preserved {α : Type _} (f : StubInfoBuilder → α → StubInfoBuilder)
    (hf : ∀ b a, (f b a).default_module_name = b.default_module_name) :
    ∀ (l : List α) (b : StubInfoBuilder),
      (l.foldl f b).default_module_name = b.default_module_name := by
  intro l
  induction l with
  | nil => intro b; rfl
  | cons a tl ih => intro b; rw [List.foldl_cons, ih, hf]

/-- Two `get_module`-plus-mutation updates at distinct effective module
names commute. -/
theorem updModule_comm_ne (b : StubInfoBuilder) (x y : Option String)
    (fx fy : ModuleDef → ModuleDef)
    (h : x.getD b.default_module_name ≠ y.getD b.default_module_name) :
    updModule (updModule b x fx) y fy = updModule (updModule b y fy) x fx := by
  obtain ⟨ms, dmn, root⟩ := b
  show StubInfoBuilder.mk
      (updAt dmn (y.getD dmn) fy (updAt dmn (x.getD dmn) fx ms)) dmn root
    = StubInfoBuilder.mk
      (updAt dmn (x.getD dmn) fx (updAt dmn (y.getD dmn) fy ms)) dmn root
  congr 1
  exact updAt_comm_ne (fun he => h he.symm) dmn fy fx ms

/-- Two `get_module`-plus-mutation updates whose mutations commute on
every module and preserve the name fields commute, whatever the
effective module names. -/
theorem updModule_comm_of_mut (b : StubInfoBuilder) (x y : Option String)
    (fx fy : ModuleDef → ModuleDef) (hfx : preservesNames fx) (hfy : preservesNames fy)
    (hc : ∀ m, fy (fx m) = fx (fy m)) :
    updModule (updModule b x fx) y fy = updModule (updModule b y fy) x fx := by
  obtain ⟨ms, dmn, root⟩ := b
  show StubInfoBuilder.mk
      (updAt dmn (y.getD dmn) fy (updAt dmn (x.getD dmn) fx ms)) dmn root
    = StubInfoBuilder.mk
      (updAt dmn (x.getD dmn) fx (updAt dmn (y.getD dmn) fy ms)) dmn root
  congr 1
  by_cases h : x.getD dmn = y.getD dmn
  · rw [h]
    exact updAt_comm_same (y.getD dmn) dmn fy fx ms hfy hfx hc
  · exact updAt_comm_ne (fun he => h he.symm) dmn fy fx ms

/-- `add_class` calls with distinct identity keys commute
(stub_info.rs:226: distinct keys hit distinct `BTreeMap` slots). -/
theorem add_class_comm (b : StubInfoBuilder) (x y : PyClassInfo)
    (h : x = y ∨ x.struct_id ≠ y.struct_id) :
    add_class (add_class b x) y = add_class (add_class b y) x := by
  rcases h with rfl | h
  · rfl
  · unfold add_class
    apply updModule_comm_of_mut
    · intro m; exact ⟨rfl, rfl⟩
    · intro m; exact ⟨rfl, rfl⟩
    · intro m
      cases m
      dsimp only
      rw [insertSorted_comm (Ne.symm h)]

/-- `add_complex_enum` calls with distinct identity keys commute. -/
theorem add_complex_enum_comm (b : StubInfoBuilder) (x y : PyComplexEnumInfo)
    (h : x = y ∨ x.enum_id ≠ y.enum_id) :
    add_complex_enum (add_complex_enum b x) y = add_complex_enum (add_complex_enum b y) x := by
  rcases h with rfl | h
  · rfl
  · unfold add_complex_enum
    apply updModule_comm_of_mut
    · intro m; exact ⟨rfl, rfl⟩
    · intro m; exact ⟨rfl, rfl⟩
    · intro m
      cases m
      dsimp only
      rw [insertSorted_comm (Ne.symm h)]

/-- `add_enum` calls with distinct identity keys commute. -/
theorem add_enum_comm (b : StubInfoBuilder) (x y : PyEnumInfo)
    (h : x = y ∨ x.enum_id ≠ y.enum_id) :
    add_enum (add_enum b x) y = add_enum (add_enum b y) x := by
  rcases h with rfl | h
  · rfl
  · unfold add_enum
    apply updModule_comm_of_mut
    · intro m; exact ⟨rfl, rfl⟩
    · intro m; exact ⟨rfl, rfl⟩
    · intro m
      cases m
      dsimp only
      rw [insertSorted_comm (Ne.symm h)]

/-- `add_function` calls that do not target the same overload list (same
effective module and same name) commute. -/
theorem add_function_comm (b : StubInfoBuilder) (x y : PyFunctionInfo)
    (h : x = y ∨ ¬(x.module.getD b.default_module_name = y.module.getD b.default_module_name
        ∧ x.name = y.name)) :
    add_function (add_function b x) y = add_function (add_function b y) x := by
  rcases h with rfl | h
  · rfl
  · by_cases hm : x.module.getD b.default_module_name = y.module.getD b.default_module_name
    · have hn : x.name ≠ y.name := fun he => h ⟨hm, he⟩
      unfold add_function
      apply updModule_comm_of_mut
      · intro m; exact ⟨rfl, rfl⟩
      · intro m; exact ⟨rfl, rfl⟩
      · intro m
        cases m
        dsimp only
        rw [lookupS_insertSorted_ne (Ne.symm hn), lookupS_insertSorted_ne hn,
          insertSorted_comm (Ne.symm hn)]
    · unfold add_function
      exact updModule_comm_ne b x.module y.module _ _ hm

/-- `add_variable` calls that do not target the same slot (same module
and same name) commute. -/
theorem add_variable_comm (b : StubInfoBuilder) (x y : PyVariableInfo)
    (h : x = y ∨ ¬(x.module = y.module ∧ x.name = y.name)) :
    add_variable (add_variable b x) y = add_variable (add_variable b y) x := by
  rcases h with rfl | h
  · rfl
  · by_cases hm : x.module = y.module
    · have hn : x.name ≠ y.name := fun he => h ⟨hm, he⟩
      unfold add_variable
      apply updModule_comm_of_mut
      · intro m; exact ⟨rfl, rfl⟩
      · intro m; exact ⟨rfl, rfl⟩
      · intro m
        cases m
        dsimp only
        rw [insertSorted_comm (Ne.symm hn)]
    · unfold add_variable
      exact updModule_comm_ne b (some x.module) (some y.module) _ _ hm

/-- `add_module_doc` calls on distinct modules commute. -/
theorem add_module_doc_comm (b : StubInfoBuilder) (x y : ModuleDocInfo)
    (h : x = y ∨ x.module ≠ y.module) :
    add_module_doc (add_module_doc b x) y = add_module_doc (add_module_doc b y) x := by
  rcases h with rfl | h
  · rfl
  · unfold add_module_doc
    exact updModule_comm_ne b (some x.module) (some y.module) _ _ h

/-- Two methods blocks with distinct identity keys can be merged into a
module list (stub_info.rs:263) in either order: they match modules
independently, and within one module they hit distinct map slots. -/
theorem addMethodsIn_bind_comm (i1 i2 : PyMethodsInfo) (h : i1.struct_id ≠ i2.struct_id) :
    ∀ l : List (String × ModuleDef),
      (addMethodsIn i1 l).bind (addMethodsIn i2)
        = (addMethodsIn i2 l).bind (addMethodsIn i1) := by
  intro l
  induction l with
  | nil => rfl
  | cons p tl ih =>
    obtain ⟨nm, m⟩ := p
    cases hc1 : lookupS i1.struct_id m.class_ with
    | some E1 =>
      have l2c : lookupS i2.struct_id
          (insertSorted i1.struct_id (mergeIntoClass i1 E1) m.class_)
          = lookupS i2.struct_id m.class_ := lookupS_insertSorted_ne (Ne.symm h) _ _
      cases hc2 : lookupS i2.struct_id m.class_ with
      | some E2 =>
        have l1c : lookupS i1.struct_id
            (insertSorted i2.struct_id (mergeIntoClass i2 E2) m.class_)
            = some E1 := by rw [lookupS_insertSorted_ne h]; exact hc1
        simp [addMethodsIn, hc1, hc2, l2c, l1c]
        rw [insertSorted_comm (Ne.symm h)]
      | none =>
        cases he2 : lookupS i2.struct_id m.enum_ with
        | some F2 =>
          simp [addMethodsIn, hc1, hc2, he2, l2c]
        | none =>
          cases h2 : addMethodsIn i2 tl with
          | none => simp [addMethodsIn, hc1, hc2, he2, l2c, h2]
          | some t2 => simp [addMethodsIn, hc1, hc2, he2, l2c, h2]
    | none =>
      cases he1 : lookupS i1.struct_id m.enum_ with
      | some F1 =>
        have l2e : lookupS i2.struct_id
            (insertSorted i1.struct_id (mergeIntoEnum i1 F1) m.enum_)
            = lookupS i2.struct_id m.enum_ := lookupS_insertSorted_ne (Ne.symm h) _ _
        cases hc2 : lookupS i2.struct_id m.class_ with
        | some E2 =>
          have l1c : lookupS i1.struct_id
              (insertSorted i2.struct_id (mergeIntoClass i2 E2) m.class_)
              = none := by rw [lookupS_insertSorted_ne h]; exact hc1
          simp [addMethodsIn, hc1, he1, hc2, l1c]
        | none =>
          cases he2 : lookupS i2.struct_id m.enum_ with
          | some F2 =>
            have l1e : lookupS i1.struct_id
                (insertSorted i2.struct_id (mergeIntoEnum i2 F2) m.enum_)
                = some F1 := by rw [lookupS_insertSorted_ne h]; exact he1
            simp [addMethodsIn, hc1, he1, hc2, he2, l2e, l1e]
            rw [insertSorted_comm (Ne.symm h)]
          | none =>
            cases h2 : addMethodsIn i2 tl with
            | none => simp [addMethodsIn, hc1, he1, hc2, he2, l2e, h2]
            | some t2 => simp [addMethodsIn, hc1, he1, hc2, he2, l2e, h2]
      | none =>
        cases hc2 : lookupS i2.struct_id m.class_ with
        | some E2 =>
          have l1c : lookupS i1.struct_id
              (insertSorted i2.struct_id (mergeIntoClass i2 E2) m.class_)
              = none := by rw [lookupS_insertSorted_ne h]; exact hc1
          cases h1 : addMethodsIn i1 tl with
          | none => simp [addMethodsIn, hc1, he1, hc2, l1c, h1]
          | some t1 => simp [addMethodsIn, hc1, he1, hc2, l1c, h1]
        | none =>
          cases he2 : lookupS i2.struct_id m.enum_ with
          | some F2 =>
            have l1e : lookupS i1.struct_id
                (insertSorted i2.struct_id (mergeIntoEnum i2 F2) m.enum_)
                = none := by rw [lookupS_insertSorted_ne h]; exact he1
            cases h1 : addMethodsIn i1 tl with
            | none => simp [addMethodsIn, hc1, he1, hc2, he2, l1e, h1]
            | some t1 => simp [addMethodsIn, hc1, he1, hc2, he2, l1e, h1]
          | none =>
            cases h1 : addMethodsIn i1 tl with
            | none =>
              cases h2 : addMethodsIn i2 tl with
              | none => simp [addMethodsIn, hc1, he1, hc2, he2, h1, h2]
              | some t2 =>
                have ih' : addMethodsIn i1 t2 = none := by
                  rw [h1, h2] at ih
                  simpa using ih.symm
                simp [addMethodsIn, hc1, he1, hc2, he2, h1, h2, ih']
            | some t1 =>
              cases h2 : addMethodsIn i2 tl with
              | none =>
                have ih' : addMethodsIn i2 t1 = none := by
                  rw [h1, h2] at ih
                  simpa using ih
                simp [addMethodsIn, hc1, he1, hc2, he2, h1, h2, ih']
              | some t2 =>
                have ih' : addMethodsIn i2 t1 = addMethodsIn i1 t2 := by
                  rw [h1, h2] at ih
                  simpa using ih
                simp [addMethodsIn, hc1, he1, hc2, he2, h1, h2, ih']

/-- `add_methods` then `add_methods` is the `addMethodsIn` composition
on the module list wrapped back into the builder. -/
theorem add_methods_bind_eq (b : StubInfoBuilder) (x y : PyMethodsInfo) :
    (add_methods b x).bind (fun b' => add_methods b' y)
      = ((addMethodsIn x b.modules).bind (addMethodsIn y)).map
          (fun ms => StubInfoBuilder.mk ms b.default_module_name b.python_root) := by
  obtain ⟨ms, dmn, root⟩ := b
  cases h1 : addMethodsIn x ms with
  | none => simp [add_methods, h1]
  | some t1 => simp [add_methods, h1]

/-- Pairwise key compatibility of the class descriptors extracted from a
compatible registry. -/
theorem pairwise_compat_classInfos {dmn : String} {r : List Descriptor}
    (h : r.Pairwise (DescCompat dmn)) :
    (classInfos r).Pairwise (fun a b => a = b ∨ a.struct_id ≠ b.struct_id) := by
  unfold classInfos
  refine List.Pairwise.filterMap _ ?_ h
  intro d d' hdd a ha b hb
  cases d <;> cases d' <;> simp only [Option.mem_def, Option.some.injEq] at ha hb <;>
    first
      | exact Option.noConfusion ha
      | exact Option.noConfusion hb
      | skip
  subst ha
  subst hb
  exact descCompat_class_iff.mp hdd

/-- Pairwise key compatibility of the complex-enum descriptors. -/
theorem pairwise_compat_complexEnumInfos {dmn : String} {r : List Descriptor}
    (h : r.Pairwise (DescCompat dmn)) :
    (complexEnumInfos r).Pairwise (fun a b => a = b ∨ a.enum_id ≠ b.enum_id) := by
  unfold complexEnumInfos
  refine List.Pairwise.filterMap _ ?_ h
  intro d d' hdd a ha b hb
  cases d <;> cases d' <;> simp only [Option.mem_def, Option.some.injEq] at ha hb <;>
    first
      | exact Option.noConfusion ha
      | exact Option.noConfusion hb
      | skip
  subst ha
  subst hb
  exact descCompat_cenum_iff.mp hdd

/-- Pairwise key compatibility of the enum descriptors. -/
theorem pairwise_compat_enumInfos {dmn : String} {r : List Descriptor}
    (h : r.Pairwise (DescCompat dmn)) :
    (enumInfos r).Pairwise (fun a b => a = b ∨ a.enum_id ≠ b.enum_id) := by
  unfold enumInfos
  refine List.Pairwise.filterMap _ ?_ h
  intro d d' hdd a ha b hb
  cases d <;> cases d' <;> simp only [Option.mem_def, Option.some.injEq] at ha hb <;>
    first
      | exact Option.noConfusion ha
      | exact Option.noConfusion hb
      | skip
  subst ha
  subst hb
  exact descCompat_enum_iff.mp hdd

/-- Pairwise key compatibility of the function descriptors. -/
theorem pairwise_compat_functionInfos {dmn : String} {r : List Descriptor}
    (h : r.Pairwise (DescCompat dmn)) :
    (functionInfos r).Pairwise (fun a b =>
      a = b ∨ ¬(a.module.getD dmn = b.module.getD dmn ∧ a.name = b.name)) := by
  unfold functionInfos
  refine List.Pairwise.filterMap _ ?_ h
  intro d d' hdd a ha b hb
  cases d <;> cases d' <;> simp only [Option.mem_def, Option.some.injEq] at ha hb <;>
    first
      | exact Option.noConfusion ha
      | exact Option.noConfusion hb
      | skip
  subst ha
  subst hb
  exact descCompat_fn_iff.mp hdd

/-- Pairwise key compatibility of the variable descriptors. -/
theorem pairwise_compat_variableInfos {dmn : String} {r : List Descriptor}
    (h : r.Pairwise (DescCompat dmn)) :
    (variableInfos r).Pairwise (fun a b =>
      a = b ∨ ¬(a.module = b.module ∧ a.name = b.name)) := by
  unfold variableInfos
  refine List.Pairwise.filterMap _ ?_ h
  intro d d' hdd a ha b hb
  cases d <;> cases d' <;> simp only [Option.mem_def, Option.some.injEq] at ha hb <;>
    first
      | exact Option.noConfusion ha
      | exact Option.noConfusion hb
      | skip
  subst ha
  subst hb
  exact descCompat_var_iff.mp hdd

/-- Pairwise key compatibility of the module-doc descriptors. -/
theorem pairwise_compat_moduleDocInfos {dmn : String} {r : List Descriptor}
    (h : r.Pairwise (DescCompat dmn)) :
    (moduleDocInfos r).Pairwise (fun a b => a = b ∨ a.module ≠ b.module) := by
  unfold moduleDocInfos
  refine List.Pairwise.filterMap _ ?_ h
  intro d d' hdd a ha b hb
  cases d <;> cases d' <;> simp only [Option.mem_def, Option.some.injEq] at ha hb <;>
    first
      | exact Option.noConfusion ha
      | exact Option.noConfusion hb
      | skip
  subst ha
  subst hb
  exact descCompat_doc_iff.mp hdd

/-- Pairwise key compatibility of the methods-block descriptors. -/
theorem pairwise_compat_methodsInfos {dmn : String} {r : List Descriptor}
    (h : r.Pairwise (DescCompat dmn)) :
    (methodsInfos r).Pairwise (fun a b => a = b ∨ a.struct_id ≠ b.struct_id) := by
  unfold methodsInfos
  refine List.Pairwise.filterMap _ ?_ h
  intro d d' hdd a ha b hb
  cases d <;> cases d' <;> simp only [Option.mem_def, Option.some.injEq] at ha hb <;>
    first
      | exact Option.noConfusion ha
      | exact Option.noConfusion hb
      | skip
  subst ha
  subst hb
  exact descCompat_methods_iff.mp hdd

/-- The class pass is permutation-invariant under compatible keys. -/
theorem foldl_add_class_perm {dmn : String} {r1 r2 : List Descriptor} (hp : r1.Perm r2)
    (hpw : r1.Pairwise (DescCompat dmn)) (z : StubInfoBuilder) :
    (classInfos r1).foldl add_class z = (classInfos r2).foldl add_class z := by
  refine (hp.filterMap _).foldl_eq' ?_ z
  intro x hx y hy w
  by_cases hxy : x = y
  · subst hxy; rfl
  · have hsym : Symmetric (fun (a b : PyClassInfo) => a = b ∨ a.struct_id ≠ b.struct_id) := by
      intro a b hab
      rcases hab with rfl | hn
      · exact Or.inl rfl
      · exact Or.inr (Ne.symm hn)
    exact add_class_comm w x y ((pairwise_compat_classInfos hpw).forall hsym hx hy hxy)

/-- The complex-enum pass is permutation-invariant under compatible keys. -/
theorem foldl_add_complex_enum_perm {dmn : String} {r1 r2 : List Descriptor} (hp : r1.Perm r2)
    (hpw : r1.Pairwise (DescCompat dmn)) (z : StubInfoBuilder) :
    (complexEnumInfos r1).foldl add_complex_enum z
      = (complexEnumInfos r2).foldl add_complex_enum z := by
  refine (hp.filterMap _).foldl_eq' ?_ z
  intro x hx y hy w
  by_cases hxy : x = y
  · subst hxy; rfl
  · have hsym : Symmetric (fun (a b : PyComplexEnumInfo) => a = b ∨ a.enum_id ≠ b.enum_id) := by
      intro a b hab
      rcases hab with rfl | hn
      · exact Or.inl rfl
      · exact Or.inr (Ne.symm hn)
    exact add_complex_enum_comm w x y
      ((pairwise_compat_complexEnumInfos hpw).forall hsym hx hy hxy)

/-- The enum pass is permutation-invariant under compatible keys. -/
theorem foldl_add_enum_perm {dmn : String} {r1 r2 : List Descriptor} (hp : r1.Perm r2)
    (hpw : r1.Pairwise (DescCompat dmn)) (z : StubInfoBuilder) :
    (enumInfos r1).foldl add_enum z = (enumInfos r2).foldl add_enum z := by
  refine (hp.filterMap _).foldl_eq' ?_ z
  intro x hx y hy w
  by_cases hxy : x = y
  · subst hxy; rfl
  · have hsym : Symmetric (fun (a b : PyEnumInfo) => a = b ∨ a.enum_id ≠ b.enum_id) := by
      intro a b hab
      rcases hab with rfl | hn
      · exact Or.inl rfl
      · exact Or.inr (Ne.symm hn)
    exact add_enum_comm w x y ((pairwise_compat_enumInfos hpw).forall hsym hx hy hxy)

/-- The function pass is permutation-invariant under compatible keys, on
builders whose default module name is the fixed `dmn`. -/
theorem foldl_add_function_perm {dmn : String} {r1 r2 : List Descriptor} (hp : r1.Perm r2)
    (hpw : r1.Pairwise (DescCompat dmn)) (z : StubInfoBuilder)
    (hz : z.default_module_name = dmn) :
    (functionInfos r1).foldl add_function z = (functionInfos r2).foldl add_function z := by
  refine foldl_perm_of_comm (fun b => b.default_module_name = dmn) add_function
    (fun b i hb => by
      show (add_function b i).default_module_name = dmn
      have hr : (add_function b i).default_module_name = b.default_module_name := rfl
      rw [hr]
      exact hb)
    (hp.filterMap _) ?_ z hz
  intro x hx y hy w hw
  by_cases hxy : x = y
  · subst hxy; rfl
  · have hsym : Symmetric (fun (a b : PyFunctionInfo) =>
        a = b ∨ ¬(a.module.getD dmn = b.module.getD dmn ∧ a.name = b.name)) := by
      intro a b hab
      rcases hab with rfl | hn
      · exact Or.inl rfl
      · exact Or.inr (fun hc => hn ⟨hc.1.symm, hc.2.symm⟩)
    have hco := (pairwise_compat_functionInfos hpw).forall hsym hx hy hxy
    refine add_function_comm w x y ?_
    rw [hw]
    exact hco

/-- The variable pass is permutation-invariant under compatible keys. -/
theorem foldl_add_variable_perm {dmn : String} {r1 r2 : List Descriptor} (hp : r1.Perm r2)
    (hpw : r1.Pairwise (DescCompat dmn)) (z : StubInfoBuilder) :
    (variableInfos r1).foldl add_variable z = (variableInfos r2).foldl add_variable z := by
  refine (hp.filterMap _).foldl_eq' ?_ z
  intro x hx y hy w
  by_cases hxy : x = y
  · subst hxy; rfl
  · have hsym : Symmetric (fun (a b : PyVariableInfo) =>
        a = b ∨ ¬(a.module = b.module ∧ a.name = b.name)) := by
      intro a b hab
      rcases hab with rfl | hn
      · exact Or.inl rfl
      · exact Or.inr (fun hc => hn ⟨hc.1.symm, hc.2.symm⟩)
    exact add_variable_comm w x y ((pairwise_compat_variableInfos hpw).forall hsym hx hy hxy)

/-- The module-doc pass is permutation-invariant under compatible keys. -/
theorem foldl_add_module_doc_perm {dmn : String} {r1 r2 : List Descriptor} (hp : r1.Perm r2)
    (hpw : r1.Pairwise (DescCompat dmn)) (z : StubInfoBuilder) :
    (moduleDocInfos r1).foldl add_module_doc z
      = (moduleDocInfos r2).foldl add_module_doc z := by
  refine (hp.filterMap _).foldl_eq' ?_ z
  intro x hx y hy w
  by_cases hxy : x = y
  · subst hxy; rfl
  · have hsym : Symmetric (fun (a b : ModuleDocInfo) => a = b ∨ a.module ≠ b.module) := by
      intro a b hab
      rcases hab with rfl | hn
      · exact Or.inl rfl
      · exact Or.inr (Ne.symm hn)
    exact add_module_doc_comm w x y ((pairwise_compat_moduleDocInfos hpw).forall hsym hx hy hxy)

/-- The behavior pass is permutation-invariant under compatible keys. -/
theorem foldl_add_methods_perm {dmn : String} {r1 r2 : List Descriptor} (hp : r1.Perm r2)
    (hpw : r1.Pairwise (DescCompat dmn)) (z : Option StubInfoBuilder) :
    (methodsInfos r1).foldl (fun ob i => ob.bind (fun b => add_methods b i)) z
      = (methodsInfos r2).foldl (fun ob i => ob.bind (fun b => add_methods b i)) z := by
  refine (hp.filterMap _).foldl_eq' ?_ z
  intro x hx y hy w
  by_cases hxy : x = y
  · subst hxy; rfl
  · have hsym : Symmetric (fun (a b : PyMethodsInfo) => a = b ∨ a.struct_id ≠ b.struct_id) := by
      intro a b hab
      rcases hab with rfl | hn
      · exact Or.inl rfl
      · exact Or.inr (Ne.symm hn)
    have hco := (pairwise_compat_methodsInfos hpw).forall hsym hx hy hxy
    rcases hco with rfl | hco
    · rfl
    · cases w with
      | none => rfl
      | some b =>
        show (add_methods b x).bind (fun b' => add_methods b' y)
          = (add_methods b y).bind (fun b' => add_methods b' x)
        rw [add_methods_bind_eq, add_methods_bind_eq, addMethodsIn_bind_comm x y hco]

/-- Definitional expansion of `build` into its seven passes. -/
theorem build_eq_parts (b0 : StubInfoBuilder) (r : List Descriptor) :
    build b0 r =
      match (methodsInfos r).foldl (fun ob i => ob.bind (fun b => add_methods b i))
          (some ((moduleDocInfos r).foldl add_module_doc
            ((variableInfos r).foldl add_variable
              ((functionInfos r).foldl add_function
                ((enumInfos r).foldl add_enum
                  ((complexEnumInfos r).foldl add_complex_enum
                    ((classInfos r).foldl add_class b0))))))) with
      | none => none
      | some b7 => some { modules := register_submodules b7.modules,
                          python_root := b7.python_root } := rfl

/-- C5 (amended): over a registry whose same-kind descriptors pairwise
target distinct map slots, `build` — and hence any rendering of its
result — is invariant under permutation of the registration order. The
unconditional claim fails: see the counterexample, where two function
descriptors sharing one overload list make the output order-dependent. -/
theorem C5_order_independence (dmn : String) (b0 : StubInfoBuilder)
    (hb0 : b0.default_module_name = dmn) (r1 r2 : List Descriptor)
    (hp : r1.Perm r2) (hpw : r1.Pairwise (DescCompat dmn)) :
    build b0 r1 = build b0 r2
    ∧ ∀ render : Option StubInfo → String,
        render (build b0 r1) = render (build b0 r2) := by
  have E1 : (classInfos r1).foldl add_class b0 = (classInfos r2).foldl add_class b0 :=
    foldl_add_class_perm hp hpw b0
  have E2 : (complexEnumInfos r1).foldl add_complex_enum ((classInfos r1).foldl add_class b0)
      = (complexEnumInfos r2).foldl add_complex_enum
          ((classInfos r2).foldl add_class b0) := by
    rw [E1]
    exact foldl_add_complex_enum_perm hp hpw _
  have E3 : (enumInfos r1).foldl add_enum
        ((complexEnumInfos r1).foldl add_complex_enum ((classInfos r1).foldl add_class b0))
      = (enumInfos r2).foldl add_enum
        ((complexEnumInfos r2).foldl add_complex_enum
          ((classInfos r2).foldl add_class b0)) := by
    rw [E2]
    exact foldl_add_enum_perm hp hpw _
  have hd3 : ((enumInfos r2).foldl add_enum
        ((complexEnumInfos r2).foldl add_complex_enum
          ((classInfos r2).foldl add_class b0))).default_module_name = dmn := by
    rw [foldl_dmn_preserved add_enum (fun b a => rfl),
      foldl_dmn_preserved add_complex_enum (fun b a => rfl),
      foldl_dmn_preserved add_class (fun b a => rfl), hb0]
  have E4 : (functionInfos r1).foldl add_function
        ((enumInfos r1).foldl add_enum
          ((complexEnumInfos r1).foldl add_complex_enum
            ((classInfos r1).foldl add_class b0)))
      = (functionInfos r2).foldl add_function
        ((enumInfos r2).foldl add_enum
          ((complexEnumInfos r2).foldl add_complex_enum
            ((classInfos r2).foldl add_class b0))) := by
    rw [E3]
    exact foldl_add_function_perm hp hpw _ hd3
  have E5 : (variableInfos r1).foldl add_variable
        ((functionInfos r1).foldl add_function
          ((enumInfos r1).foldl add_enum
            ((complexEnumInfos r1).foldl add_complex_enum
              ((classInfos r1).foldl add_class b0))))
      = (variableInfos r2).foldl add_variable
        ((functionInfos r2).foldl add_function
          ((enumInfos r2).foldl add_enum
            ((complexEnumInfos r2).foldl add_complex_enum
              ((classInfos r2).foldl add_class b0)))) := by
    rw [E4]
    exact foldl_add_variable_perm hp hpw _
  have E6 : (moduleDocInfos r1).foldl add_module_doc
        ((variableInfos r1).foldl add_variable
          ((functionInfos r1).foldl add_function
            ((enumInfos r1).foldl add_enum
              ((complexEnumInfos r1).foldl add_complex_enum
                ((classInfos r1).foldl add_class b0)))))
      = (moduleDocInfos r2).foldl add_module_doc
        ((variableInfos r2).foldl add_variable
          ((functionInfos r2).foldl add_function
            ((enumInfos r2).foldl add_enum
              ((complexEnumInfos r2).foldl add_complex_enum
                ((classInfos r2).foldl add_class b0))))) := by
    rw [E5]
    exact foldl_add_module_doc_perm hp hpw _
  have E7 : (methodsInfos r1).foldl (fun ob i => ob.bind (fun b => add_methods b i))
        (some ((moduleDocInfos r1).foldl add_module_doc
          ((variableInfos r1).foldl add_variable
            ((functionInfos r1).foldl add_function
              ((enumInfos r1).foldl add_enum
                ((complexEnumInfos r1).foldl add_complex_enum
                  ((classInfos r1).foldl add_class b0)))))))
      = (methodsInfos r2).foldl (fun ob i => ob.bind (fun b => add_methods b i))
        (some ((moduleDocInfos r2).foldl add_module_doc
          ((variableInfos r2).foldl add_variable
            ((functionInfos r2).foldl add_function
              ((enumInfos r2).foldl add_enum
                ((complexEnumInfos r2).foldl add_complex_enum
                  ((classInfos r2).foldl add_class b0))))))) := by
    rw [E6]
    exact foldl_add_methods_perm hp hpw _
  have hmain : build b0 r1 = build b0 r2 := by
    rw [build_eq_parts, build_eq_parts, E7]
  exact ⟨hmain, fun render => by rw [hmain]⟩

/-- Two function descriptors sharing module and name (an overload pair)
differing only in return type. -/
def exFnInt : PyFunctionInfo :=
  { name := "f", module := none, parameters := [], ret := TypeInfo.builtin "int",
    doc := "", is_async := false }

/-- Second overload of `f`, returning `str`. -/
def exFnStr : PyFunctionInfo :=
  { name := "f", module := none, parameters := [], ret := TypeInfo.builtin "str",
    doc := "", is_async := false }

/-- C5 counterexample: the unconditional claim fails — swapping the
registration order of two same-name function descriptors permutes the
registry yet changes the built stub, because the per-name overload list
(stub_info.rs:244-252) appends in registration order. -/
theorem C5_counterexample :
    ([Descriptor.functionInfo exFnInt, Descriptor.functionInfo exFnStr].Perm
      [Descriptor.functionInfo exFnStr, Descriptor.functionInfo exFnInt])
    ∧ build (newBuilder "m" "")
        [Descriptor.functionInfo exFnInt, Descriptor.functionInfo exFnStr]
      ≠ build (newBuilder "m" "")
        [Descriptor.functionInfo exFnStr, Descriptor.functionInfo exFnInt] := by
  constructor
  · exact List.Perm.swap _ _ _
  · decide

/-- A variable descriptor living next to the `f` overloads. -/
def exVarDesc : PyVariableInfo :=
  { name := "v", module := "m", type := TypeInfo.builtin "int" }

theorem C5_order_independence_witness :
    (newBuilder "m" "").default_module_name = "m"
    ∧ ([Descriptor.functionInfo exFnInt, Descriptor.variableInfo exVarDesc].Perm
        [Descriptor.variableInfo exVarDesc, Descriptor.functionInfo exFnInt])
    ∧ List.Pairwise (DescCompat "m")
        [Descriptor.functionInfo exFnInt, Descriptor.variableInfo exVarDesc]
    ∧ build (newBuilder "m" "")
        [Descriptor.functionInfo exFnInt, Descriptor.variableInfo exVarDesc]
      = build (newBuilder "m" "")
        [Descriptor.variableInfo exVarDesc, Descriptor.functionInfo exFnInt] := by
  refine ⟨rfl, List.Perm.swap _ _ _, by decide, ?_⟩
  exact (C5_order_independence "m" (newBuilder "m" "") rfl
    [Descriptor.functionInfo exFnInt, Descriptor.variableInfo exVarDesc]
    [Descriptor.variableInfo exVarDesc, Descriptor.functionInfo exFnInt]
    (List.Perm.swap _ _ _) (by decide)).1
